import Mathlib

/-!
Squishy-Cubes: a shallow embedding of `src/main.cpp`

The simulator works on C++ `float`s.  The embedding idealises `float` as an
arbitrary linearly ordered field `F` (exact arithmetic, no rounding, no NaN)
and takes the library function `sqrtf` as a parameter `sqrt : F → F`.
Theorems that depend on what `sqrtf` computes assume `IsSqrt sqrt`; the real
numbers with `Real.sqrt` satisfy it.

The tuning globals (`DIST_STIFF`, `MAX_MOVE`, ...) are collected in `Params`
and passed explicitly.  Pointers into a body's particle vector are indices into
`SoftBody.particles`; an index outside the vector stands for a dangling
pointer and makes the operation return `none`.
-/

namespace SquishyCubes

/-! ## Vec2 -/

/-- The C++ `struct Vec2`. -/
structure Vec2 (F : Type) where
  x : F
  y : F
deriving DecidableEq

namespace Vec2

variable {F : Type} [LinearOrderedField F]

/-- The C++ `Vec2::operator+`. -/
def add (a b : Vec2 F) : Vec2 F := ⟨a.x + b.x, a.y + b.y⟩

/-- The C++ `Vec2::operator-`. -/
def sub (a b : Vec2 F) : Vec2 F := ⟨a.x - b.x, a.y - b.y⟩

/-- The C++ `Vec2::operator*(float)`. -/
def smul (a : Vec2 F) (f : F) : Vec2 F := ⟨a.x * f, a.y * f⟩

/-- The C++ `Vec2::operator/(float)`. -/
def sdiv (a : Vec2 F) (f : F) : Vec2 F := ⟨a.x / f, a.y / f⟩

instance : Add (Vec2 F) := ⟨add⟩
instance : Sub (Vec2 F) := ⟨sub⟩
instance : HMul (Vec2 F) F (Vec2 F) := ⟨smul⟩
instance : HDiv (Vec2 F) F (Vec2 F) := ⟨sdiv⟩

/-- The C++ `Vec2::Length`: `sqrtf(x*x+y*y)`. -/
def Length (sqrt : F → F) (v : Vec2 F) : F := sqrt (v.x * v.x + v.y * v.y)

/-- The C++ `Vec2::Normalized`: the zero vector when the length is zero. -/
def Normalized (sqrt : F → F) (v : Vec2 F) : Vec2 F :=
  let len := Length sqrt v
  if len = 0 then ⟨0, 0⟩ else ⟨v.x / len, v.y / len⟩

end Vec2

/-- What the embedding assumes of `sqrtf`: on non-negative arguments it
returns the non-negative square root. -/
def IsSqrt {F : Type} [LinearOrderedField F] (sqrt : F → F) : Prop :=
  ∀ x : F, 0 ≤ x → 0 ≤ sqrt x ∧ sqrt x * sqrt x = x

/-! ## Particle and tuning parameters -/

/-- The C++ `struct Particle`. -/
structure Particle (F : Type) where
  position : Vec2 F
  oldPosition : Vec2 F
  acceleration : Vec2 F
  pinned : Bool
deriving DecidableEq

/-- The C++ constructor `Particle(Vec2 pos)`. -/
def Particle.new {F : Type} [LinearOrderedField F] (pos : Vec2 F) : Particle F :=
  ⟨pos, pos, ⟨0, 0⟩, false⟩

/-- The mutable globals of `main.cpp` (lines 47-53). -/
structure Params (F : Type) where
  DIST_STIFF : F
  SHAPE_STIFF : F
  BOUNCE : F
  MAX_MOVE : F
  PARTICLE_RADIUS : F
  ITERATIONS : Int
  THROW_STRENGTH : F

section Physics

variable {F : Type} [LinearOrderedField F]

/-- The C++ `ApplyForce`. -/
def ApplyForce (p : Particle F) (f : Vec2 F) : Particle F :=
  if p.pinned then p else { p with acceleration := p.acceleration + f }

/-- The C++ `Integrate`. -/
def Integrate (sqrt : F → F) (cfg : Params F) (p : Particle F) (dt : F) : Particle F :=
  if p.pinned then p else
    let vel := p.position - p.oldPosition
    let vel := if Vec2.Length sqrt vel > cfg.MAX_MOVE
      then Vec2.Normalized sqrt vel * cfg.MAX_MOVE else vel
    let vel := vel * (0.95 : F)
    let temp := p.position
    { p with
      position := p.position + (vel + p.acceleration * dt * dt)
      oldPosition := temp
      acceleration := ⟨0, 0⟩ }

/-- The C++ `SolveStick`, on the two particles the stick points to and its
rest length. -/
def SolveStick (sqrt : F → F) (cfg : Params F) (restLength : F)
    (p1 p2 : Particle F) : Particle F × Particle F :=
  let delta := p2.position - p1.position
  let dist := Vec2.Length sqrt delta
  if dist = 0 then (p1, p2) else
    let offset := delta * (0.5 : F) * (dist - restLength) / dist * cfg.DIST_STIFF
    let p1' := if p1.pinned then p1 else { p1 with position := p1.position + offset }
    let p2' := if p2.pinned then p2 else { p2 with position := p2.position - offset }
    (p1', p2')

/-- The C++ `SolveFloor`. -/
def SolveFloor (cfg : Params F) (p : Particle F) (floorY : F) : Particle F :=
  if p.position.y > floorY then
    let velY := p.position.y - p.oldPosition.y
    { p with
      position := ⟨p.position.x, floorY⟩
      oldPosition := ⟨p.oldPosition.x, floorY + velY * cfg.BOUNCE⟩ }
  else p

/-- The C++ `SolveCeiling`. -/
def SolveCeiling (cfg : Params F) (p : Particle F) (ceilingY : F) : Particle F :=
  if p.position.y < ceilingY then
    let velY := p.oldPosition.y - p.position.y
    { p with
      position := ⟨p.position.x, ceilingY⟩
      oldPosition := ⟨p.oldPosition.x, ceilingY + velY * cfg.BOUNCE⟩ }
  else p

/-- The C++ `SolveWalls`: the left test, then the right test on the result. -/
def SolveWalls (cfg : Params F) (p : Particle F) (leftX rightX : F) : Particle F :=
  let p :=
    if p.position.x < leftX then
      let velX := p.oldPosition.x - p.position.x
      { p with
        position := ⟨leftX, p.position.y⟩
        oldPosition := ⟨leftX + velX * cfg.BOUNCE, p.oldPosition.y⟩ }
    else p
  if p.position.x > rightX then
    let velX := p.oldPosition.x - p.position.x
    { p with
      position := ⟨rightX, p.position.y⟩
      oldPosition := ⟨rightX + velX * cfg.BOUNCE, p.oldPosition.y⟩ }
  else p

/-- The C++ `SolveParticleCollision`. -/
def SolveParticleCollision (sqrt : F → F) (a b : Particle F) (radius : F) :
    Particle F × Particle F :=
  let delta := b.position - a.position
  let dist := Vec2.Length sqrt delta
  if dist = 0 then (a, b) else
    if dist < radius * 2 then
      let offset := Vec2.Normalized sqrt delta * ((radius * 2 - dist) / 2)
      let a' := if a.pinned then a else { a with position := a.position - offset }
      let b' := if b.pinned then b else { b with position := b.position + offset }
      (a', b')
    else (a, b)

end Physics

/-! ## Stick, Quad, SoftBody -/

/-- The C++ `struct Stick`; `p1`, `p2` are indices into the owning body's
particle vector. -/
structure Stick (F : Type) where
  p1 : Nat
  p2 : Nat
  restLength : F
deriving DecidableEq

/-- The C++ `struct Quad`; `p0 .. p3` are indices into the owning body's
particle vector. -/
structure Quad (F : Type) where
  p0 : Nat
  p1 : Nat
  p2 : Nat
  p3 : Nat
  offset0 : Vec2 F
  offset1 : Vec2 F
  offset2 : Vec2 F
  offset3 : Vec2 F
deriving DecidableEq

/-- The data members of the C++ `struct SoftBody`. -/
structure SoftBody (F : Type) where
  particles : List (Particle F)
  sticks : List (Stick F)
  quads : List (Quad F)
  cols : Int
  rows : Int
  spacing : F
deriving DecidableEq

section Body

variable {F : Type} [LinearOrderedField F]

/-- `SolveStick(s)` for a stick of a body whose particle vector is `ps`:
both pointers are dereferenced, `SolveStick` runs, both particles are
written back. -/
def solveStickAt (sqrt : F → F) (cfg : Params F) (ps : List (Particle F))
    (s : Stick F) : Option (List (Particle F)) :=
  match ps[s.p1]?, ps[s.p2]? with
  | some a, some b =>
    let r := SolveStick sqrt cfg s.restLength a b
    some ((ps.set s.p1 r.1).set s.p2 r.2)
  | _, _ => none

/-- The three boundary calls of the relaxation pass, in source order:
`SolveFloor(p,screenHeight-50); SolveCeiling(p,50); SolveWalls(p,50,screenWidth-50)`. -/
def solveBounds (cfg : Params F) (floorY ceilingY leftX rightX : F)
    (p : Particle F) : Particle F :=
  SolveWalls cfg (SolveCeiling cfg (SolveFloor cfg p floorY) ceilingY) leftX rightX

/-- The clamp of `SolveShapeMatching` (line 133):
`if(moves[i].Length()>MAX_MOVE) moves[i]=moves[i].Normalized()*MAX_MOVE`. -/
def clampMove (sqrt : F → F) (cfg : Params F) (m : Vec2 F) : Vec2 F :=
  if Vec2.Length sqrt m > cfg.MAX_MOVE then Vec2.Normalized sqrt m * cfg.MAX_MOVE else m

/-- The statement `if(!q.pi->pinned) q.pi->position+=m` on the particle
vector `ps`, `i` being the index the pointer stands for. -/
def addPosition (ps : List (Particle F)) (i : Nat) (m : Vec2 F) :
    Option (List (Particle F)) :=
  match ps[i]? with
  | some p => some (if p.pinned then ps else ps.set i { p with position := p.position + m })
  | none => none

/-- The C++ `SolveShapeMatching` for a quad of a body whose particle vector
is `ps`: centre, targets and moves are computed from the positions read at
entry, then the four guarded updates run one after the other. -/
def SolveShapeMatching (sqrt : F → F) (cfg : Params F) (ps : List (Particle F))
    (q : Quad F) : Option (List (Particle F)) :=
  match ps[q.p0]?, ps[q.p1]?, ps[q.p2]?, ps[q.p3]? with
  | some a0, some a1, some a2, some a3 =>
    let center := (a0.position + a1.position + a2.position + a3.position) / (4 : F)
    let target0 := center + q.offset0
    let target1 := center + q.offset1
    let target2 := center + q.offset2
    let target3 := center + q.offset3
    let move0 := clampMove sqrt cfg ((target0 - a0.position) * cfg.SHAPE_STIFF)
    let move1 := clampMove sqrt cfg ((target1 - a1.position) * cfg.SHAPE_STIFF)
    let move2 := clampMove sqrt cfg ((target2 - a2.position) * cfg.SHAPE_STIFF)
    let move3 := clampMove sqrt cfg ((target3 - a3.position) * cfg.SHAPE_STIFF)
    (((addPosition ps q.p0 move0).bind fun ps =>
      addPosition ps q.p1 move1).bind fun ps =>
      addPosition ps q.p2 move2).bind fun ps =>
      addPosition ps q.p3 move3
  | _, _, _, _ => none

/-- One call `SolveParticleCollision(particles[j],particles[k],radius)` on the
particle vector `ps`. -/
def collidePair (sqrt : F → F) (radius : F) (j : Nat) (ps : List (Particle F))
    (k : Nat) : List (Particle F) :=
  match ps[j]?, ps[k]? with
  | some a, some b =>
    let r := SolveParticleCollision sqrt a b radius
    (ps.set j r.1).set k r.2
  | _, _ => ps

/-- The double loop of lines 303-305 over all index pairs `j < k`. -/
def collideAll (sqrt : F → F) (radius : F) (ps : List (Particle F)) : List (Particle F) :=
  (List.range ps.length).foldl
    (fun ps j => (List.range' (j + 1) (ps.length - (j + 1))).foldl (collidePair sqrt radius j) ps)
    ps

/-- One relaxation pass over a body (the body of the `it` loop, lines 296-305). -/
def relaxPass (sqrt : F → F) (cfg : Params F) (floorY ceilingY leftX rightX : F)
    (b : SoftBody F) : Option (SoftBody F) :=
  (b.sticks.foldlM (solveStickAt sqrt cfg) b.particles).bind fun ps =>
  (b.quads.foldlM (SolveShapeMatching sqrt cfg)
      (ps.map (solveBounds cfg floorY ceilingY leftX rightX))).bind fun ps =>
  some { b with particles := collideAll sqrt cfg.PARTICLE_RADIUS ps }

/-- Run `f` `n` times, stopping at the first failure. -/
def iterateOpt {α : Type} (f : α → Option α) : Nat → α → Option α
  | 0, a => some a
  | n + 1, a => (f a).bind (iterateOpt f n)

/-- The per-body part of the physics step (lines 292-306): gravity,
integration, then `ITERATIONS` relaxation passes. -/
def stepBody (sqrt : F → F) (cfg : Params F) (gravity : Vec2 F) (dt : F)
    (floorY ceilingY leftX rightX : F) (b : SoftBody F) : Option (SoftBody F) :=
  let ps := b.particles.map fun p => ApplyForce p gravity
  let ps := ps.map fun p => Integrate sqrt cfg p dt
  iterateOpt (relaxPass sqrt cfg floorY ceilingY leftX rightX) cfg.ITERATIONS.toNat
    { b with particles := ps }

/-- The particle `b.particles[i]` for an `int` index `i`. -/
def SoftBody.particleAt (b : SoftBody F) (i : Int) : Option (Particle F) :=
  if 0 ≤ i then b.particles[i.toNat]? else none

/-- Apply `f` to the position of every particle of a body. -/
def SoftBody.mapPositions (b : SoftBody F) (f : Vec2 F → Vec2 F) : SoftBody F :=
  { b with particles := b.particles.map fun p => { p with position := f p.position } }

/-- The C++ `SolveCubeCollision`. -/
def SolveCubeCollision (a b : SoftBody F) : Option (SoftBody F × SoftBody F) :=
  match a.particleAt 0, a.particleAt (a.cols - 1), a.particleAt ((a.rows - 1) * a.cols),
        b.particleAt 0, b.particleAt (b.cols - 1), b.particleAt ((b.rows - 1) * b.cols) with
  | some a0, some a1, some a2, some b0, some b1, some b2 =>
    let ax0 := a0.position.x
    let ay0 := a0.position.y
    let ax1 := a1.position.x
    let ay1 := a2.position.y
    let bx0 := b0.position.x
    let by0 := b0.position.y
    let bx1 := b1.position.x
    let by1 := b2.position.y
    if ax1 < bx0 ∨ ax0 > bx1 ∨ ay1 < by0 ∨ ay0 > by1 then some (a, b) else
      let px := min (ax1 - bx0) (bx1 - ax0)
      let py := min (ay1 - by0) (by1 - ay0)
      if px < py then
        let push := px / 2
        some (a.mapPositions fun v => ⟨v.x - push, v.y⟩,
              b.mapPositions fun v => ⟨v.x + push, v.y⟩)
      else
        let push := py / 2
        some (a.mapPositions fun v => ⟨v.x, v.y - push⟩,
              b.mapPositions fun v => ⟨v.x, v.y + push⟩)
  | _, _, _, _, _, _ => none

/-- One call `SolveCubeCollision(*cubes[i],*cubes[j])` on the list of bodies. -/
def collideCubes (i : Nat) (cubes : List (SoftBody F)) (j : Nat) :
    Option (List (SoftBody F)) :=
  match cubes[i]?, cubes[j]? with
  | some a, some b =>
    (SolveCubeCollision a b).map fun r => (cubes.set i r.1).set j r.2
  | _, _ => some cubes

/-- The double loop of lines 309-311 over all body pairs `i < j`. -/
def collideAllCubes (cubes : List (SoftBody F)) : Option (List (SoftBody F)) :=
  (List.range cubes.length).foldlM
    (fun cs i => (List.range' (i + 1) (cubes.length - (i + 1))).foldlM (collideCubes i) cs)
    cubes

/-- The physics part of one frame of `main` (lines 291-311), with the world
bounds `screenHeight-50`, `50`, `50`, `screenWidth-50` of the source. -/
def physicsStep (sqrt : F → F) (cfg : Params F) (gravity : Vec2 F) (dt : F)
    (cubes : List (SoftBody F)) : Option (List (SoftBody F)) :=
  (cubes.mapM' (stepBody sqrt cfg gravity dt (1000 - 50) 50 50 (1800 - 50))).bind
    collideAllCubes

/-- Run `n` physics frames. -/
def physicsFrames (sqrt : F → F) (cfg : Params F) (gravity : Vec2 F) (dt : F)
    (n : Nat) (cubes : List (SoftBody F)) : Option (List (SoftBody F)) :=
  iterateOpt (physicsStep sqrt cfg gravity dt) n cubes

end Body

/-! ## The SoftBody constructor -/

section Constructor

variable {F : Type} [LinearOrderedField F]

/-- The position given to the particle at grid place `(x, y)` by the
constructor (lines 153-156); `rx`, `ry` are the values the two `rand()` calls
return for it. -/
def gridPos (startX startY s : F) (rx ry : Nat) (x y : Nat) : Vec2 F :=
  ⟨startX + (x : F) * s + (((rx % 100 : Nat) : F) / 100) * 2,
   startY + (y : F) * s + (((ry % 100 : Nat) : F) / 100) * 2⟩

/-- The C++ constructor `SoftBody(startX,startY,c,r,s)`.  `rx i` and `ry i`
are the values returned by the `rand()` calls for the x and the y coordinate
of particle `i`. -/
def SoftBody.new (rx ry : Nat → Nat) (startX startY : F) (c r : Int) (s : F) : SoftBody F :=
  let cols := c.toNat
  let pos : Nat → Nat → Vec2 F := fun x y =>
    gridPos startX startY s (rx (y * cols + x)) (ry (y * cols + x)) x y
  { particles :=
      (List.range r.toNat).flatMap fun y => (List.range cols).map fun x => Particle.new (pos x y)
    sticks :=
      (List.range r.toNat).flatMap fun y => (List.range cols).flatMap fun x =>
        (if (x : Int) < c - 1 then [⟨y * cols + x, y * cols + x + 1, s⟩] else []) ++
        (if (y : Int) < r - 1 then [⟨y * cols + x, y * cols + x + cols, s⟩] else []) ++
        (if (x : Int) < c - 1 ∧ (y : Int) < r - 1 then
          [⟨y * cols + x, y * cols + x + cols + 1, s * 1.4142⟩,
           ⟨y * cols + x + 1, y * cols + x + cols, s * 1.4142⟩] else [])
    quads :=
      (List.range (r - 1).toNat).flatMap fun y => (List.range (c - 1).toNat).map fun x =>
        let center := (pos x y + pos (x + 1) y + pos x (y + 1) + pos (x + 1) (y + 1)) / (4 : F)
        { p0 := y * cols + x
          p1 := y * cols + x + 1
          p2 := y * cols + x + cols
          p3 := y * cols + x + cols + 1
          offset0 := pos x y - center
          offset1 := pos (x + 1) y - center
          offset2 := pos x (y + 1) - center
          offset3 := pos (x + 1) (y + 1) - center }
    cols := c
    rows := r
    spacing := s }

end Constructor

/-! ## Interaction: grab, move while held, release, remove -/

/-- The part of the state of `main` the interaction code works on.  A body
allocated with `new SoftBody` is stored with its address; the addresses in
`cubes` are pairwise distinct.  `grabbedParticle` is the `Particle*` of the
source: `none` is `nullptr`, `some (addr, i)` points to particle `i` of the
body allocated at `addr`, whether or not that body is still alive. -/
structure World (F : Type) where
  cubes : List (Nat × SoftBody F)
  grabbedParticle : Option (Nat × Nat)
deriving DecidableEq

section Interaction

variable {F : Type} [LinearOrderedField F]

/-- The C++ `SoftBody::GetCenter`. -/
def SoftBody.GetCenter (b : SoftBody F) : Vec2 F :=
  (b.particles.foldl (fun c p => c + p.position) ⟨0, 0⟩) / (b.particles.length : F)

/-- The pointer `g` designates a particle of a body of the live-body list. -/
def Designates (cubes : List (Nat × SoftBody F)) (g : Nat × Nat) : Prop :=
  ∃ c ∈ cubes, c.1 = g.1 ∧ g.2 < c.2.particles.length

/-- The value of `std::numeric_limits<float>::max()`. -/
def FLT_MAX : F := 340282346638528859811704183484516925440

/-- The body of the inner grab loop (lines 267-269) for particle `ip.2`, which
is particle number `ip.1` of the body at `addr`; `acc` is
`(minDist, grabbedParticle)`. -/
def grabStep (mousePos : Vec2 F) (addr : Nat) (acc : F × Option (Nat × Nat))
    (ip : Nat × Particle F) : F × Option (Nat × Nat) :=
  let d := (ip.2.position.x - mousePos.x) * (ip.2.position.x - mousePos.x) +
           (ip.2.position.y - mousePos.y) * (ip.2.position.y - mousePos.y)
  if d < acc.1 ∧ d < 400 then (d, some (addr, ip.1)) else acc

/-- The mouse-press handler (lines 262-271). -/
def handlePress (mousePos : Vec2 F) (w : World F) : World F :=
  { w with grabbedParticle :=
      (w.cubes.foldl
        (fun acc c => c.2.particles.enum.foldl (grabStep mousePos c.1) acc)
        (FLT_MAX, none)).2 }

/-- The flick of lines 279-281 on one body. -/
def flick (mouseVel : Vec2 F) (b : SoftBody F) : SoftBody F :=
  { b with particles := b.particles.map fun p => { p with oldPosition := p.position - mouseVel } }

/-- The write `grabbedParticle->position = mousePos` (line 283) when the
pointer is particle `i` of body `b`. -/
def setGrabbed (mousePos : Vec2 F) (i : Nat) (b : SoftBody F) : SoftBody F :=
  { b with particles := b.particles.modify (fun p => { p with position := mousePos }) i }

/-- The mouse-held handler (lines 273-284).  The final write
`grabbedParticle->position = mousePos` goes through the pointer whether or
not a live body owns it; when none does, the result is `none`. -/
def handleHeld (mousePos mouseVel : Vec2 F) (w : World F) : Option (World F) :=
  match w.grabbedParticle with
  | none => some w
  | some g =>
    match w.cubes.findIdx? (fun c => decide (c.1 = g.1 ∧ g.2 < c.2.particles.length)) with
    | none => none
    | some n =>
      some { w with cubes :=
        (w.cubes.modify (fun c => (c.1, setGrabbed mousePos g.2 (flick mouseVel c.2))) n) }

/-- The mouse-release handler (line 286). -/
def handleRelease (w : World F) : World F :=
  { w with grabbedParticle := none }

/-- The loop of lines 318-326: erase the first body whose centre is less
than 100 away from the mouse. -/
def eraseNear (sqrt : F → F) (mousePos : Vec2 F) :
    List (Nat × SoftBody F) → List (Nat × SoftBody F)
  | [] => []
  | c :: cs =>
    if Vec2.Length sqrt (mousePos - c.2.GetCenter) < 100 then cs
    else c :: eraseNear sqrt mousePos cs

/-- The `KEY_D` handler (lines 317-327). -/
def handleKeyD (sqrt : F → F) (mousePos : Vec2 F) (w : World F) : World F :=
  { w with cubes := eraseNear sqrt mousePos w.cubes }

end Interaction

/-! ## Concrete inputs used by the evaluations below -/

/-- The initial values of the tuning globals (lines 47-53). -/
def defaultParams {F : Type} [LinearOrderedField F] : Params F :=
  ⟨0.3, 0.12, 0.5, 6.0, 5.0, 5, 3.0⟩

/-- A pinned particle below the floor `screenHeight-50 = 950`, moving down. -/
def pinnedProbe : Particle ℚ := ⟨⟨100, 2000⟩, ⟨100, 1990⟩, ⟨0, 0⟩, true⟩

/-- A 1x1 body made of `pinnedProbe`. -/
def pinnedBody : SoftBody ℚ := ⟨[pinnedProbe], [], [], 1, 1, 30⟩

/-- An unpinned particle above the ceiling `50` and left of the wall `50`,
moving up and to the left. -/
def cornerProbe : Particle ℚ := ⟨⟨40, 40⟩, ⟨45, 45⟩, ⟨0, 0⟩, false⟩

/-- An unpinned particle right of the wall `1750`, moving to the right. -/
def rightProbe : Particle ℚ := ⟨⟨1760, 500⟩, ⟨1750, 500⟩, ⟨0, 0⟩, false⟩

/-- An unpinned particle with implicit velocity `(10, 0)` and no pending
acceleration. -/
def fastProbe {F : Type} [LinearOrderedField F] : Particle F :=
  ⟨⟨10, 0⟩, ⟨0, 0⟩, ⟨0, 0⟩, false⟩

/-- An unpinned particle at rest at the origin. -/
def originProbe {F : Type} [LinearOrderedField F] : Particle F :=
  ⟨⟨0, 0⟩, ⟨0, 0⟩, ⟨0, 0⟩, false⟩

/-- An unpinned particle at rest at `(3, 4)`. -/
def farProbe {F : Type} [LinearOrderedField F] : Particle F :=
  ⟨⟨3, 4⟩, ⟨3, 4⟩, ⟨0, 0⟩, false⟩

/-- The signed length error `distance - restLength` of a link whose
endpoints are the two particles of `s`. -/
def stickError {F : Type} [LinearOrderedField F] (sqrt : F → F) (restLength : F)
    (s : Particle F × Particle F) : F :=
  Vec2.Length sqrt (s.2.position - s.1.position) - restLength

/-- The state of a link after `n` calls of `SolveStick`. -/
def stickIter {F : Type} [LinearOrderedField F] (sqrt : F → F) (cfg : Params F)
    (restLength : F) (n : Nat) (s : Particle F × Particle F) : Particle F × Particle F :=
  (fun t => SolveStick sqrt cfg restLength t.1 t.2)^[n] s

/-- The body `new SoftBody(310,300,2,2,30)` when every `rand()` call returns
`0`: a 2x2 grid with corners `(310,300)` and `(340,330)`. -/
def cubeRight {F : Type} [LinearOrderedField F] : SoftBody F :=
  SoftBody.new (fun _ => 0) (fun _ => 0) 310 300 2 2 30

/-- The body `new SoftBody(282,300,2,2,30)` when every `rand()` call returns
`0`: a 2x2 grid with corners `(282,300)` and `(312,330)`. -/
def cubeLeft {F : Type} [LinearOrderedField F] : SoftBody F :=
  SoftBody.new (fun _ => 0) (fun _ => 0) 282 300 2 2 30

/-- A world whose only body is `cubeRight`, allocated at address `0`, with
nothing grabbed. -/
def grabWorld {F : Type} [LinearOrderedField F] : World F :=
  ⟨[(0, cubeRight)], none⟩

/-! ## The rest state of a world -/

section RestState

variable {F : Type} [LinearOrderedField F]

/-- Every link of `b` has its endpoints at distance `restLength`. -/
def SticksSatisfied (sqrt : F → F) (b : SoftBody F) : Prop :=
  ∀ s ∈ b.sticks, ∃ p q, b.particles[s.p1]? = some p ∧ b.particles[s.p2]? = some q ∧
    Vec2.Length sqrt (q.position - p.position) = s.restLength

/-- Every cell of `b` has its four points at centroid plus stored offset. -/
def QuadsSatisfied (b : SoftBody F) : Prop :=
  ∀ q ∈ b.quads, ∃ a0 a1 a2 a3,
    b.particles[q.p0]? = some a0 ∧ b.particles[q.p1]? = some a1 ∧
    b.particles[q.p2]? = some a2 ∧ b.particles[q.p3]? = some a3 ∧
    a0.position
      = (a0.position + a1.position + a2.position + a3.position) / (4 : F) + q.offset0 ∧
    a1.position
      = (a0.position + a1.position + a2.position + a3.position) / (4 : F) + q.offset1 ∧
    a2.position
      = (a0.position + a1.position + a2.position + a3.position) / (4 : F) + q.offset2 ∧
    a3.position
      = (a0.position + a1.position + a2.position + a3.position) / (4 : F) + q.offset3

/-- Every point of `b` lies within the floor, ceiling and wall bounds. -/
def InBounds (floorY ceilingY leftX rightX : F) (b : SoftBody F) : Prop :=
  ∀ p ∈ b.particles, p.position.y ≤ floorY ∧ ceilingY ≤ p.position.y ∧
    leftX ≤ p.position.x ∧ p.position.x ≤ rightX

/-- Every pair of points of `b` is at distance at least `2 * radius`. -/
def PairsApart (sqrt : F → F) (radius : F) (b : SoftBody F) : Prop :=
  ∀ (j k : Nat) (p q : Particle F), j < k →
    b.particles[j]? = some p → b.particles[k]? = some q →
    radius * 2 ≤ Vec2.Length sqrt (q.position - p.position)

/-- The bounding boxes of `a` and `b`, read as `SolveCubeCollision` reads
them, have disjoint interiors on some axis. -/
def BoxesApart (a b : SoftBody F) : Prop :=
  ∃ a0 a1 a2 b0 b1 b2,
    a.particleAt 0 = some a0 ∧ a.particleAt (a.cols - 1) = some a1 ∧
    a.particleAt ((a.rows - 1) * a.cols) = some a2 ∧
    b.particleAt 0 = some b0 ∧ b.particleAt (b.cols - 1) = some b1 ∧
    b.particleAt ((b.rows - 1) * b.cols) = some b2 ∧
    (a1.position.x ≤ b0.position.x ∨ b1.position.x ≤ a0.position.x ∨
     a2.position.y ≤ b0.position.y ∨ b2.position.y ≤ a0.position.y)

/-- The hypothesis of the idempotence property: every constraint of every
body holds exactly, with the world bounds of `main`, and no two bodies'
boxes overlap. -/
def ConstraintsSatisfied (sqrt : F → F) (cfg : Params F) (cubes : List (SoftBody F)) : Prop :=
  (∀ b ∈ cubes, SticksSatisfied sqrt b ∧ QuadsSatisfied b ∧
    InBounds (1000 - 50) 50 50 (1800 - 50) b ∧ PairsApart sqrt cfg.PARTICLE_RADIUS b) ∧
  ∀ (i j : Nat) (a b : SoftBody F), i < j →
    cubes[i]? = some a → cubes[j]? = some b → BoxesApart a b

/-- Every unpinned point of `b` has zero implicit velocity and no pending
acceleration. -/
def AtRest (b : SoftBody F) : Prop :=
  ∀ p ∈ b.particles, p.pinned = false →
    p.oldPosition = p.position ∧ p.acceleration = ⟨0, 0⟩

end RestState

/-- A 1x1 body in flight: its only particle has implicit velocity `(1, 0)`. -/
def movingBody {F : Type} [LinearOrderedField F] : SoftBody F :=
  ⟨[⟨⟨100, 100⟩, ⟨99, 100⟩, ⟨0, 0⟩, false⟩], [], [], 1, 1, 30⟩

/-- The body `new SoftBody(100,100,2,1,30)` when every `rand()` call returns
`0`: two points joined by one link of rest length 30. -/
def rodLeft {F : Type} [LinearOrderedField F] : SoftBody F :=
  SoftBody.new (fun _ => 0) (fun _ => 0) 100 100 2 1 30

/-- The body `new SoftBody(200,100,2,1,30)` when every `rand()` call returns `0`. -/
def rodRight {F : Type} [LinearOrderedField F] : SoftBody F :=
  SoftBody.new (fun _ => 0) (fun _ => 0) 200 100 2 1 30

/-! ## The centroid with its division made visible -/

/-- The C++ `Vec2::operator/(float)` with the divisor tested: `none` when the
call divides by zero. -/
def Vec2.checkedDiv {F : Type} [LinearOrderedField F] (a : Vec2 F) (f : F) :
    Option (Vec2 F) :=
  if f = 0 then none else some (a / f)

/-- The C++ `SoftBody::GetCenter` with its one division done by
`Vec2.checkedDiv`: the result is `none` exactly when `GetCenter` divides by
a particle count of zero. -/
def SoftBody.GetCenterChecked {F : Type} [LinearOrderedField F] (b : SoftBody F) :
    Option (Vec2 F) :=
  Vec2.checkedDiv (b.particles.foldl (fun c p => c + p.position) ⟨0, 0⟩)
    (b.particles.length : F)

/-- The body `new SoftBody(300,300,0,0,30)`: a grid without particles. -/
def emptyBody {F : Type} [LinearOrderedField F] : SoftBody F :=
  SoftBody.new (fun _ => 0) (fun _ => 0) 300 300 0 0 30

/-- An unpinned particle between two walls given in the wrong order. -/
def wallProbe : Particle ℚ := ⟨⟨5, 0⟩, ⟨4, 0⟩, ⟨0, 0⟩, false⟩

/-! ## Cells: numbering, spec-side clamp, concrete cells -/

section QuadDefs
variable {F : Type} [LinearOrderedField F]

/-- The update `if(!p.pinned) p.position+=m` of `SolveShapeMatching` on one
particle. -/
def movedBy (p : Particle F) (m : Vec2 F) : Particle F :=
  if p.pinned then p else { p with position := p.position + m }

/-- The move of a cell point as the specification words it: `d` when
`|d| ≤ MAX_MOVE`, otherwise `d * MAX_MOVE / |d|`. -/
def clampSpec (sqrt : F → F) (maxMove : F) (d : Vec2 F) : Vec2 F :=
  if Vec2.Length sqrt d ≤ maxMove then d else d * maxMove / Vec2.Length sqrt d

/-- The four point references of a cell, numbered 0 to 3. -/
def Quad.point (q : Quad F) : Fin 4 → Nat := ![q.p0, q.p1, q.p2, q.p3]

/-- The four stored offsets of a cell, numbered 0 to 3. -/
def Quad.offset (q : Quad F) : Fin 4 → Vec2 F := ![q.offset0, q.offset1, q.offset2, q.offset3]

/-- The mean of the positions of four particles, summed in source order. -/
def centroid4 (a : Fin 4 → Particle F) : Vec2 F :=
  ((a 0).position + (a 1).position + (a 2).position + (a 3).position) / (4 : F)
end QuadDefs

/-- The cell the constructor builds for `cubeRight`. -/
def restQuad {F : Type} [LinearOrderedField F] : Quad F :=
  ⟨0, 1, 2, 3, ⟨-15, -15⟩, ⟨15, -15⟩, ⟨-15, 15⟩, ⟨15, 15⟩⟩

/-- The build-time positions of the four particles of `cubeRight`. -/
def buildCorners {F : Type} [LinearOrderedField F] : Fin 4 → Vec2 F :=
  ![⟨310, 300⟩, ⟨340, 300⟩, ⟨310, 330⟩, ⟨340, 330⟩]

/-- The four particles of `cubeRight` after a translation by `(5, 7)`. -/
def shiftedCorners {F : Type} [LinearOrderedField F] : Fin 4 → Particle F :=
  ![Particle.new ⟨315, 307⟩, Particle.new ⟨345, 307⟩, Particle.new ⟨315, 337⟩,
    Particle.new ⟨345, 337⟩]

/-- The four particles of `cubeRight` with the last one pulled out by `(4, 3)`. -/
def pulledCorners {F : Type} [LinearOrderedField F] : Fin 4 → Particle F :=
  ![Particle.new ⟨310, 300⟩, Particle.new ⟨340, 300⟩, Particle.new ⟨310, 330⟩,
    Particle.new ⟨344, 333⟩]

/-! ## The grab loop: distance and loop invariant -/

section GrabDefs
variable {F : Type} [LinearOrderedField F]

/-- The squared distance `d` the grab loop computes between a particle and
the mouse (lines 267-268). -/
def distSq (mousePos : Vec2 F) (p : Particle F) : F :=
  (p.position.x - mousePos.x) * (p.position.x - mousePos.x) +
  (p.position.y - mousePos.y) * (p.position.y - mousePos.y)

/-- The state `(minDist, grabbedParticle)` of the grab loop is consistent
with the set `Seen` of particles visited so far: nothing is grabbed only if
no visited particle is within the radius, and a grabbed particle is a visited
one within the radius that no visited particle beats. -/
def GrabInv (mousePos : Vec2 F) (acc : F × Option (Nat × Nat))
    (Seen : Nat × Nat → Particle F → Prop) : Prop :=
  (acc.2 = none → acc.1 = FLT_MAX ∧ ∀ g p, Seen g p → 400 ≤ distSq mousePos p) ∧
  (∀ g, acc.2 = some g → acc.1 < 400 ∧ (∃ p, Seen g p ∧ distSq mousePos p = acc.1) ∧
    ∀ g' p', Seen g' p' → acc.1 ≤ distSq mousePos p')
end GrabDefs

/-! ## Component lemmas for Vec2 -/

theorem Vec2.ext_xy {F : Type} {a b : Vec2 F} (hx : a.x = b.x) (hy : a.y = b.y) : a = b := by
  cases a; cases b; simp_all

section Lemmas

variable {F : Type} [LinearOrderedField F]

@[simp] theorem Vec2.add_x (a b : Vec2 F) : (a + b).x = a.x + b.x := rfl
@[simp] theorem Vec2.add_y (a b : Vec2 F) : (a + b).y = a.y + b.y := rfl
@[simp] theorem Vec2.sub_x (a b : Vec2 F) : (a - b).x = a.x - b.x := rfl
@[simp] theorem Vec2.sub_y (a b : Vec2 F) : (a - b).y = a.y - b.y := rfl
@[simp] theorem Vec2.smul_x (a : Vec2 F) (f : F) : (a * f).x = a.x * f := rfl
@[simp] theorem Vec2.smul_y (a : Vec2 F) (f : F) : (a * f).y = a.y * f := rfl
@[simp] theorem Vec2.sdiv_x (a : Vec2 F) (f : F) : (a / f).x = a.x / f := rfl
@[simp] theorem Vec2.sdiv_y (a : Vec2 F) (f : F) : (a / f).y = a.y / f := rfl

theorem Vec2.mk_add (a b c d : F) : (⟨a, b⟩ : Vec2 F) + ⟨c, d⟩ = ⟨a + c, b + d⟩ := rfl
theorem Vec2.mk_sub (a b c d : F) : (⟨a, b⟩ : Vec2 F) - ⟨c, d⟩ = ⟨a - c, b - d⟩ := rfl
theorem Vec2.mk_smul (a b f : F) : (⟨a, b⟩ : Vec2 F) * f = ⟨a * f, b * f⟩ := rfl
theorem Vec2.mk_sdiv (a b f : F) : (⟨a, b⟩ : Vec2 F) / f = ⟨a / f, b / f⟩ := rfl

/-- The operations that test `pinned` leave a pinned particle as it is. -/
theorem pinned_guarded_ops (sqrt : F → F) (cfg : Params F) (p q : Particle F) (f : Vec2 F)
    (dt r : F) (hp : p.pinned = true) :
    ApplyForce p f = p ∧ Integrate sqrt cfg p dt = p ∧
    (SolveStick sqrt cfg r p q).1 = p ∧ (SolveStick sqrt cfg r q p).2 = p ∧
    (SolveParticleCollision sqrt p q r).1 = p ∧ (SolveParticleCollision sqrt q p r).2 = p := by
  refine ⟨?_, ?_, ?_, ?_, ?_, ?_⟩
  · simp [ApplyForce, hp]
  · simp [Integrate, hp]
  · simp only [SolveStick]; split_ifs <;> simp_all
  · simp only [SolveStick]; split_ifs <;> simp_all
  · simp only [SolveParticleCollision]; split_ifs <;> simp_all
  · simp only [SolveParticleCollision]; split_ifs <;> simp_all

/-- What `SolveCeiling` does to a particle above the ceiling: the implicit
vertical velocity is multiplied by `BOUNCE`, without a change of sign. -/
theorem SolveCeiling_velocity (cfg : Params F) (p : Particle F) (ceilingY : F)
    (h : p.position.y < ceilingY) :
    (SolveCeiling cfg p ceilingY).position.y = ceilingY ∧
    (SolveCeiling cfg p ceilingY).position.y - (SolveCeiling cfg p ceilingY).oldPosition.y
      = cfg.BOUNCE * (p.position.y - p.oldPosition.y) := by
  simp only [SolveCeiling, if_pos h]
  exact ⟨trivial, by ring⟩

end Lemmas

/-! ## Consequences of `IsSqrt` -/

section SqrtLemmas

variable {F : Type} [LinearOrderedField F]

theorem real_isSqrt : IsSqrt Real.sqrt :=
  fun x hx => ⟨Real.sqrt_nonneg x, Real.mul_self_sqrt hx⟩

theorem IsSqrt.sqrt_mul_self {sqrt : F → F} (hs : IsSqrt sqrt) {a : F} (ha : 0 ≤ a) :
    sqrt (a * a) = a := by
  obtain ⟨h0, h1⟩ := hs (a * a) (mul_self_nonneg a)
  exact (mul_self_inj h0 ha).mp h1

theorem Vec2.normSq_nonneg (v : Vec2 F) : 0 ≤ v.x * v.x + v.y * v.y :=
  add_nonneg (mul_self_nonneg _) (mul_self_nonneg _)

theorem Vec2.Length_nonneg {sqrt : F → F} (hs : IsSqrt sqrt) (v : Vec2 F) :
    0 ≤ Vec2.Length sqrt v :=
  (hs _ (Vec2.normSq_nonneg v)).1

theorem Vec2.Length_mul_self {sqrt : F → F} (hs : IsSqrt sqrt) (v : Vec2 F) :
    Vec2.Length sqrt v * Vec2.Length sqrt v = v.x * v.x + v.y * v.y :=
  (hs _ (Vec2.normSq_nonneg v)).2

/-- Scaling a vector by a non-negative factor scales its length. -/
theorem Vec2.Length_smul {sqrt : F → F} (hs : IsSqrt sqrt) (v : Vec2 F) {c : F}
    (hc : 0 ≤ c) : Vec2.Length sqrt (v * c) = Vec2.Length sqrt v * c := by
  have hL := Vec2.Length_mul_self hs v
  have h0 : 0 ≤ Vec2.Length sqrt v * c := mul_nonneg (Vec2.Length_nonneg hs v) hc
  have key : (v * c).x * (v * c).x + (v * c).y * (v * c).y
      = (Vec2.Length sqrt v * c) * (Vec2.Length sqrt v * c) := by
    simp only [Vec2.smul_x, Vec2.smul_y]
    calc v.x * c * (v.x * c) + v.y * c * (v.y * c)
        = (v.x * v.x + v.y * v.y) * (c * c) := by ring
      _ = (Vec2.Length sqrt v * Vec2.Length sqrt v) * (c * c) := by rw [hL]
      _ = _ := by ring
  unfold Vec2.Length at *
  rw [key]
  exact hs.sqrt_mul_self h0

theorem Vec2.Length_eq_zero {sqrt : F → F} (hs : IsSqrt sqrt) (v : Vec2 F) :
    Vec2.Length sqrt v = 0 ↔ v.x = 0 ∧ v.y = 0 := by
  have hL := Vec2.Length_mul_self hs v
  constructor
  · intro h
    rw [h, mul_zero] at hL
    have hx : v.x * v.x = 0 := by nlinarith [mul_self_nonneg v.x, mul_self_nonneg v.y]
    have hy : v.y * v.y = 0 := by nlinarith [mul_self_nonneg v.x, mul_self_nonneg v.y]
    exact ⟨mul_self_eq_zero.mp hx, mul_self_eq_zero.mp hy⟩
  · rintro ⟨hx, hy⟩
    rw [hx, hy] at hL
    simp only [mul_zero, add_zero] at hL
    exact mul_self_eq_zero.mp hL

/-- The position change of `Integrate` when the velocity clamp fires and no
acceleration is pending: damping comes after the clamp, so the step has
length `0.95 * MAX_MOVE`. -/
theorem clamped_step_length {sqrt : F → F} (hs : IsSqrt sqrt) (cfg : Params F)
    (p : Particle F) (dt : F) (hp : p.pinned = false)
    (hv : Vec2.Length sqrt (p.position - p.oldPosition) > cfg.MAX_MOVE)
    (hM : 0 < cfg.MAX_MOVE) (ha : p.acceleration = ⟨0, 0⟩) :
    Vec2.Length sqrt ((Integrate sqrt cfg p dt).position - p.position)
      = 0.95 * cfg.MAX_MOVE := by
  have hL : Vec2.Length sqrt (p.position - p.oldPosition) ≠ 0 := by
    intro h; rw [h] at hv; exact absurd hv (not_lt.mpr hM.le)
  have hLpos : 0 < Vec2.Length sqrt (p.position - p.oldPosition) := lt_trans hM hv
  have hstep : (Integrate sqrt cfg p dt).position - p.position
      = (p.position - p.oldPosition)
          * (cfg.MAX_MOVE * 0.95 / Vec2.Length sqrt (p.position - p.oldPosition)) := by
    simp only [Integrate, hp, Bool.false_eq_true, if_false, if_pos hv, ha]
    apply Vec2.ext_xy <;> simp [Vec2.Normalized, hL] <;> field_simp <;> ring
  rw [hstep, Vec2.Length_smul hs _ (by positivity)]
  field_simp
  ring

end SqrtLemmas

/-! ## Lengths of the concrete inputs over the reals -/

theorem fastProbe_speed :
    Vec2.Length Real.sqrt ((fastProbe : Particle ℝ).position - fastProbe.oldPosition) = 10 := by
  have h : ((fastProbe : Particle ℝ).position - fastProbe.oldPosition).x
        * ((fastProbe : Particle ℝ).position - fastProbe.oldPosition).x
      + ((fastProbe : Particle ℝ).position - fastProbe.oldPosition).y
        * ((fastProbe : Particle ℝ).position - fastProbe.oldPosition).y = 10 * 10 := by
    norm_num [fastProbe]
  unfold Vec2.Length
  rw [h]
  exact real_isSqrt.sqrt_mul_self (by norm_num)

theorem farProbe_distance :
    Vec2.Length Real.sqrt ((farProbe : Particle ℝ).position - originProbe.position) = 5 := by
  have h : ((farProbe : Particle ℝ).position - originProbe.position).x
        * ((farProbe : Particle ℝ).position - originProbe.position).x
      + ((farProbe : Particle ℝ).position - originProbe.position).y
        * ((farProbe : Particle ℝ).position - originProbe.position).y = 5 * 5 := by
    norm_num [farProbe, originProbe]
  unfold Vec2.Length
  rw [h]
  exact real_isSqrt.sqrt_mul_self (by norm_num)

/-- After `SolveParticleCollision` has pushed two unpinned particles apart,
the vector between them is the old one scaled by `2 * radius / dist`. -/
theorem SolveParticleCollision_delta {F : Type} [LinearOrderedField F] (sqrt : F → F)
    (a b : Particle F) (radius : F) (ha : a.pinned = false) (hb : b.pinned = false)
    (h0 : Vec2.Length sqrt (b.position - a.position) ≠ 0)
    (h1 : Vec2.Length sqrt (b.position - a.position) < radius * 2) :
    (SolveParticleCollision sqrt a b radius).2.position
        - (SolveParticleCollision sqrt a b radius).1.position
      = (b.position - a.position)
          * (2 * radius / Vec2.Length sqrt (b.position - a.position)) := by
  simp only [SolveParticleCollision, if_neg h0, if_pos h1, ha, hb, Bool.false_eq_true,
    if_false]
  apply Vec2.ext_xy <;> simp [Vec2.Normalized, h0] <;> field_simp <;> ring

/-! ## One and many applications of `SolveStick` -/

section StickLemmas

variable {F : Type} [LinearOrderedField F]

/-- One application of `SolveStick` to a link with unpinned endpoints at
positive distance: both stay unpinned, the distance stays positive and the
signed length error is multiplied by `1 - DIST_STIFF`. -/
theorem SolveStick_step {sqrt : F → F} (hs : IsSqrt sqrt) (cfg : Params F) (rest : F)
    (s : Particle F × Particle F) (h1 : s.1.pinned = false) (h2 : s.2.pinned = false)
    (hr : 0 < rest) (hk0 : 0 < cfg.DIST_STIFF) (hk1 : cfg.DIST_STIFF ≤ 1)
    (hd : 0 < Vec2.Length sqrt (s.2.position - s.1.position)) :
    (SolveStick sqrt cfg rest s.1 s.2).1.pinned = false ∧
    (SolveStick sqrt cfg rest s.1 s.2).2.pinned = false ∧
    0 < Vec2.Length sqrt ((SolveStick sqrt cfg rest s.1 s.2).2.position
          - (SolveStick sqrt cfg rest s.1 s.2).1.position) ∧
    stickError sqrt rest (SolveStick sqrt cfg rest s.1 s.2)
      = (1 - cfg.DIST_STIFF) * stickError sqrt rest s := by
  set L := Vec2.Length sqrt (s.2.position - s.1.position) with hL
  have hne : L ≠ 0 := hd.ne'
  have hnum : 0 < L - cfg.DIST_STIFF * (L - rest) := by nlinarith
  have hdelta : (SolveStick sqrt cfg rest s.1 s.2).2.position
        - (SolveStick sqrt cfg rest s.1 s.2).1.position
      = (s.2.position - s.1.position) * ((L - cfg.DIST_STIFF * (L - rest)) / L) := by
    simp only [SolveStick, ← hL, if_neg hne, h1, h2, Bool.false_eq_true, if_false]
    apply Vec2.ext_xy <;> simp <;> field_simp <;> ring
  have hlen : Vec2.Length sqrt ((SolveStick sqrt cfg rest s.1 s.2).2.position
        - (SolveStick sqrt cfg rest s.1 s.2).1.position)
      = L - cfg.DIST_STIFF * (L - rest) := by
    rw [hdelta, Vec2.Length_smul hs _ (div_pos hnum hd).le, ← hL]
    field_simp
  refine ⟨?_, ?_, ?_, ?_⟩
  · simp only [SolveStick, ← hL, if_neg hne, h1, Bool.false_eq_true, if_false]
  · simp only [SolveStick, ← hL, if_neg hne, h2, Bool.false_eq_true, if_false]
  · rw [hlen]; exact hnum
  · unfold stickError
    rw [hlen, ← hL]
    ring

/-- The invariant and the closed form of the error after `n` applications. -/
theorem stickIter_error {sqrt : F → F} (hs : IsSqrt sqrt) (cfg : Params F) (rest : F)
    (s : Particle F × Particle F) (h1 : s.1.pinned = false) (h2 : s.2.pinned = false)
    (hr : 0 < rest) (hk0 : 0 < cfg.DIST_STIFF) (hk1 : cfg.DIST_STIFF ≤ 1)
    (hd : 0 < Vec2.Length sqrt (s.2.position - s.1.position)) (n : Nat) :
    (stickIter sqrt cfg rest n s).1.pinned = false ∧
    (stickIter sqrt cfg rest n s).2.pinned = false ∧
    0 < Vec2.Length sqrt ((stickIter sqrt cfg rest n s).2.position
          - (stickIter sqrt cfg rest n s).1.position) ∧
    stickError sqrt rest (stickIter sqrt cfg rest n s)
      = (1 - cfg.DIST_STIFF) ^ n * stickError sqrt rest s := by
  induction n with
  | zero => simp [stickIter, h1, h2, hd]
  | succ n ih =>
    obtain ⟨a, b, c, d⟩ := ih
    have hstep := SolveStick_step hs cfg rest (stickIter sqrt cfg rest n s) a b hr hk0 hk1 c
    have hsucc : stickIter sqrt cfg rest (n + 1) s
        = SolveStick sqrt cfg rest (stickIter sqrt cfg rest n s).1
            (stickIter sqrt cfg rest n s).2 := by
      simp only [stickIter, Function.iterate_succ_apply']
    rw [hsucc]
    refine ⟨hstep.1, hstep.2.1, hstep.2.2.1, ?_⟩
    rw [hstep.2.2.2, d]
    ring

end StickLemmas

/-! ## Fixed points of the solvers -/

section FixedPoints

variable {F : Type} [LinearOrderedField F]

theorem set_of_getElem? {α : Type} : ∀ (l : List α) (i : Nat) (a : α),
    l[i]? = some a → l.set i a = l
  | [], _, _, h => by simp at h
  | x :: l, 0, a, h => by simp at h; simp [h]
  | x :: l, i + 1, a, h => by
    simp only [List.getElem?_cons_succ] at h
    simp [set_of_getElem? l i a h]

theorem foldl_fixed {α β : Type} (f : β → α → β) (b : β) :
    ∀ l : List α, (∀ x ∈ l, f b x = b) → l.foldl f b = b
  | [], _ => rfl
  | x :: l, h => by
    rw [List.foldl_cons, h x (List.mem_cons_self x l)]
    exact foldl_fixed f b l fun y hy => h y (List.mem_cons_of_mem x hy)

theorem foldlM_fixed {α β : Type} (f : β → α → Option β) (b : β) :
    ∀ l : List α, (∀ x ∈ l, f b x = some b) → l.foldlM f b = some b
  | [], _ => rfl
  | x :: l, h => by
    rw [List.foldlM_cons, h x (List.mem_cons_self x l)]
    exact foldlM_fixed f b l fun y hy => h y (List.mem_cons_of_mem x hy)

theorem mapM'_fixed {α : Type} (f : α → Option α) :
    ∀ l : List α, (∀ x ∈ l, f x = some x) → l.mapM' f = some l
  | [], _ => rfl
  | x :: l, h => by
    rw [List.mapM'_cons, h x (List.mem_cons_self x l),
      mapM'_fixed f l fun y hy => h y (List.mem_cons_of_mem x hy)]
    rfl

theorem iterateOpt_fixed {α : Type} (f : α → Option α) (a : α) (h : f a = some a) :
    ∀ n, iterateOpt f n a = some a
  | 0 => rfl
  | n + 1 => by
    rw [iterateOpt, h]
    exact iterateOpt_fixed f a h n

theorem Vec2.add_zero_vec (v : Vec2 F) : v + (⟨0, 0⟩ : Vec2 F) = v := by
  apply Vec2.ext_xy <;> simp

theorem Vec2.sub_zero_vec (v : Vec2 F) : v - (⟨0, 0⟩ : Vec2 F) = v := by
  apply Vec2.ext_xy <;> simp

theorem ApplyForce_zero (p : Particle F) : ApplyForce p ⟨0, 0⟩ = p := by
  unfold ApplyForce
  split_ifs
  · rfl
  · rw [Vec2.add_zero_vec]

theorem clampMove_zero (sqrt : F → F) (cfg : Params F) :
    clampMove sqrt cfg ⟨0, 0⟩ = ⟨0, 0⟩ := by
  unfold clampMove
  split_ifs
  · apply Vec2.ext_xy <;> simp [Vec2.Normalized]
  · rfl

theorem Integrate_at_rest (sqrt : F → F) (cfg : Params F) (p : Particle F) (dt : F)
    (h : p.pinned = false → p.oldPosition = p.position ∧ p.acceleration = ⟨0, 0⟩) :
    Integrate sqrt cfg p dt = p := by
  cases hp : p.pinned
  · obtain ⟨ho, ha⟩ := h hp
    have hv : p.position - p.oldPosition = ⟨0, 0⟩ := by
      rw [ho]; apply Vec2.ext_xy <;> simp
    have hc := clampMove_zero sqrt cfg
    unfold clampMove at hc
    simp only [Integrate, hp, Bool.false_eq_true, if_false, hv, hc, ha]
    cases p
    simp only [Particle.mk.injEq] at *
    refine ⟨?_, ho.symm, ha.symm, hp.symm⟩
    apply Vec2.ext_xy <;> simp
  · simp [Integrate, hp]

end FixedPoints

section SolverFixedPoints

variable {F : Type} [LinearOrderedField F]

theorem SolveStick_satisfied (sqrt : F → F) (cfg : Params F) (rest : F) (p q : Particle F)
    (h : Vec2.Length sqrt (q.position - p.position) = rest) :
    SolveStick sqrt cfg rest p q = (p, q) := by
  have hoff : (q.position - p.position) * (0.5 : F) * (rest - rest) / rest * cfg.DIST_STIFF
      = ⟨0, 0⟩ := by
    apply Vec2.ext_xy <;> simp
  unfold SolveStick
  simp only [h]
  by_cases h0 : rest = 0
  · simp only [if_pos h0]
  · simp only [if_neg h0, hoff, Vec2.add_zero_vec, Vec2.sub_zero_vec, ite_self]

theorem solveStickAt_satisfied (sqrt : F → F) (cfg : Params F) (ps : List (Particle F))
    (s : Stick F)
    (h : ∃ p q, ps[s.p1]? = some p ∧ ps[s.p2]? = some q ∧
      Vec2.Length sqrt (q.position - p.position) = s.restLength) :
    solveStickAt sqrt cfg ps s = some ps := by
  obtain ⟨p, q, hp, hq, hlen⟩ := h
  simp only [solveStickAt, hp, hq, SolveStick_satisfied sqrt cfg s.restLength p q hlen]
  rw [set_of_getElem? ps s.p1 p hp, set_of_getElem? ps s.p2 q hq]

theorem solveBounds_inBounds (cfg : Params F) (floorY ceilingY leftX rightX : F)
    (p : Particle F)
    (h : p.position.y ≤ floorY ∧ ceilingY ≤ p.position.y ∧
      leftX ≤ p.position.x ∧ p.position.x ≤ rightX) :
    solveBounds cfg floorY ceilingY leftX rightX p = p := by
  obtain ⟨h1, h2, h3, h4⟩ := h
  simp only [solveBounds, SolveFloor, SolveCeiling, SolveWalls, gt_iff_lt,
    if_neg (not_lt.mpr h1), if_neg (not_lt.mpr h2), if_neg (not_lt.mpr h3),
    if_neg (not_lt.mpr h4)]

theorem addPosition_zero (ps : List (Particle F)) (i : Nat) (p : Particle F)
    (h : ps[i]? = some p) : addPosition ps i ⟨0, 0⟩ = some ps := by
  simp only [addPosition, h, Vec2.add_zero_vec]
  split_ifs
  · rfl
  · rw [set_of_getElem? ps i p h]

theorem SolveShapeMatching_satisfied (sqrt : F → F) (cfg : Params F)
    (ps : List (Particle F)) (q : Quad F)
    (h : ∃ a0 a1 a2 a3,
      ps[q.p0]? = some a0 ∧ ps[q.p1]? = some a1 ∧ ps[q.p2]? = some a2 ∧ ps[q.p3]? = some a3 ∧
      a0.position
        = (a0.position + a1.position + a2.position + a3.position) / (4 : F) + q.offset0 ∧
      a1.position
        = (a0.position + a1.position + a2.position + a3.position) / (4 : F) + q.offset1 ∧
      a2.position
        = (a0.position + a1.position + a2.position + a3.position) / (4 : F) + q.offset2 ∧
      a3.position
        = (a0.position + a1.position + a2.position + a3.position) / (4 : F) + q.offset3) :
    SolveShapeMatching sqrt cfg ps q = some ps := by
  obtain ⟨a0, a1, a2, a3, h0, h1, h2, h3, e0, e1, e2, e3⟩ := h
  have hz : ∀ (t v : Vec2 F), v = t → clampMove sqrt cfg ((t - v) * cfg.SHAPE_STIFF)
      = ⟨0, 0⟩ := by
    intro t v hv
    have : (t - v) * cfg.SHAPE_STIFF = ⟨0, 0⟩ := by
      rw [hv]; apply Vec2.ext_xy <;> simp
    rw [this, clampMove_zero]
  simp only [SolveShapeMatching, h0, h1, h2, h3]
  rw [hz _ _ e0, hz _ _ e1, hz _ _ e2, hz _ _ e3]
  simp only [addPosition_zero ps q.p0 a0 h0, addPosition_zero ps q.p1 a1 h1,
    addPosition_zero ps q.p2 a2 h2, addPosition_zero ps q.p3 a3 h3, Option.some_bind]

theorem collidePair_apart (sqrt : F → F) (radius : F) (ps : List (Particle F)) (j k : Nat)
    (h : ∀ p q, ps[j]? = some p → ps[k]? = some q →
      radius * 2 ≤ Vec2.Length sqrt (q.position - p.position)) :
    collidePair sqrt radius j ps k = ps := by
  unfold collidePair
  cases hj : ps[j]? with
  | none => rfl
  | some p =>
    cases hk : ps[k]? with
    | none => rfl
    | some q =>
      have hfix : SolveParticleCollision sqrt p q radius = (p, q) := by
        unfold SolveParticleCollision
        simp only [if_neg (not_lt.mpr (h p q hj hk)), ite_self]
      simp only [hfix]
      rw [set_of_getElem? ps j p hj, set_of_getElem? ps k q hk]

theorem collideAll_apart (sqrt : F → F) (radius : F) (ps : List (Particle F))
    (h : ∀ (j k : Nat) (p q : Particle F), j < k → ps[j]? = some p → ps[k]? = some q →
      radius * 2 ≤ Vec2.Length sqrt (q.position - p.position)) :
    collideAll sqrt radius ps = ps := by
  unfold collideAll
  apply foldl_fixed
  intro j _
  apply foldl_fixed
  intro k hk
  have hjk : j < k := by
    have := (List.mem_range'_1.mp hk).1
    omega
  exact collidePair_apart sqrt radius ps j k fun p q hp hq => h j k p q hjk hp hq

end SolverFixedPoints

theorem mapPositions_id {F : Type} (b : SoftBody F) (f : Vec2 F → Vec2 F) (h : ∀ v, f v = v) :
    b.mapPositions f = b := by
  unfold SoftBody.mapPositions
  have : b.particles.map (fun p => { p with position := f p.position }) = b.particles :=
    List.map_id'' (fun p => by rw [h]) _
  rw [this]

section FrameFixedPoints

variable {F : Type} [LinearOrderedField F]

theorem relaxPass_satisfied (sqrt : F → F) (cfg : Params F) (floorY ceilingY leftX rightX : F)
    (b : SoftBody F) (hs : SticksSatisfied sqrt b) (hq : QuadsSatisfied b)
    (hb : InBounds floorY ceilingY leftX rightX b)
    (hp : PairsApart sqrt cfg.PARTICLE_RADIUS b) :
    relaxPass sqrt cfg floorY ceilingY leftX rightX b = some b := by
  have h1 : b.sticks.foldlM (solveStickAt sqrt cfg) b.particles = some b.particles :=
    foldlM_fixed _ _ _ fun s hmem => solveStickAt_satisfied sqrt cfg b.particles s (hs s hmem)
  have h2 : b.particles.map (solveBounds cfg floorY ceilingY leftX rightX) = b.particles := by
    rw [List.map_congr_left fun p hmem =>
      solveBounds_inBounds cfg floorY ceilingY leftX rightX p (hb p hmem)]
    exact List.map_id'' (fun _ => rfl) _
  have h3 : b.quads.foldlM (SolveShapeMatching sqrt cfg) b.particles = some b.particles :=
    foldlM_fixed _ _ _ fun q hmem =>
      SolveShapeMatching_satisfied sqrt cfg b.particles q (hq q hmem)
  have h4 : collideAll sqrt cfg.PARTICLE_RADIUS b.particles = b.particles :=
    collideAll_apart sqrt cfg.PARTICLE_RADIUS b.particles hp
  simp only [relaxPass, h1, Option.some_bind, h2, h3, h4]

theorem stepBody_at_rest (sqrt : F → F) (cfg : Params F) (dt : F)
    (floorY ceilingY leftX rightX : F)
    (b : SoftBody F) (hs : SticksSatisfied sqrt b) (hq : QuadsSatisfied b)
    (hb : InBounds floorY ceilingY leftX rightX b)
    (hp : PairsApart sqrt cfg.PARTICLE_RADIUS b) (hr : AtRest b) :
    stepBody sqrt cfg ⟨0, 0⟩ dt floorY ceilingY leftX rightX b = some b := by
  have h1 : b.particles.map (fun p => ApplyForce p (⟨0, 0⟩ : Vec2 F)) = b.particles :=
    List.map_id'' (fun p => ApplyForce_zero p) _
  have h2 : b.particles.map (fun p => Integrate sqrt cfg p dt) = b.particles := by
    rw [List.map_congr_left fun p hmem => Integrate_at_rest sqrt cfg p dt (hr p hmem)]
    exact List.map_id'' (fun _ => rfl) _
  simp only [stepBody, h1, h2]
  exact iterateOpt_fixed _ _ (relaxPass_satisfied sqrt cfg floorY ceilingY leftX rightX b
    hs hq hb hp) _

theorem SolveCubeCollision_apart (a b : SoftBody F) (h : BoxesApart a b) :
    SolveCubeCollision a b = some (a, b) := by
  obtain ⟨a0, a1, a2, b0, b1, b2, ha0, ha1, ha2, hb0, hb1, hb2, hsep⟩ := h
  simp only [SolveCubeCollision, ha0, ha1, ha2, hb0, hb1, hb2]
  by_cases hret : a1.position.x < b0.position.x ∨ a0.position.x > b1.position.x ∨
      a2.position.y < b0.position.y ∨ a0.position.y > b2.position.y
  · rw [if_pos hret]
  · rw [if_neg hret]
    simp only [not_or, not_lt] at hret
    obtain ⟨r1, r2, r3, r4⟩ := hret
    have hx : 0 ≤ min (a1.position.x - b0.position.x) (b1.position.x - a0.position.x) :=
      le_min (by linarith) (by linarith)
    have hy : 0 ≤ min (a2.position.y - b0.position.y) (b2.position.y - a0.position.y) :=
      le_min (by linarith) (by linarith)
    have hzero : min (a1.position.x - b0.position.x) (b1.position.x - a0.position.x) = 0 ∨
        min (a2.position.y - b0.position.y) (b2.position.y - a0.position.y) = 0 := by
      rcases hsep with h | h | h | h
      · exact Or.inl (le_antisymm (le_trans (min_le_left _ _) (by linarith)) hx)
      · exact Or.inl (le_antisymm (le_trans (min_le_right _ _) (by linarith)) hx)
      · exact Or.inr (le_antisymm (le_trans (min_le_left _ _) (by linarith)) hy)
      · exact Or.inr (le_antisymm (le_trans (min_le_right _ _) (by linarith)) hy)
    by_cases hlt : min (a1.position.x - b0.position.x) (b1.position.x - a0.position.x)
        < min (a2.position.y - b0.position.y) (b2.position.y - a0.position.y)
    · rw [if_pos hlt]
      have hpx : min (a1.position.x - b0.position.x) (b1.position.x - a0.position.x) = 0 := by
        rcases hzero with h | h
        · exact h
        · rw [h] at hlt; exact absurd hlt (not_lt.mpr hx)
      rw [hpx, mapPositions_id a _ (fun v => by apply Vec2.ext_xy <;> simp),
        mapPositions_id b _ (fun v => by apply Vec2.ext_xy <;> simp)]
    · rw [if_neg hlt]
      have hpy : min (a2.position.y - b0.position.y) (b2.position.y - a0.position.y) = 0 := by
        rcases hzero with h | h
        · rw [h] at hlt; exact le_antisymm (not_lt.mp hlt) hy
        · exact h
      rw [hpy, mapPositions_id a _ (fun v => by apply Vec2.ext_xy <;> simp),
        mapPositions_id b _ (fun v => by apply Vec2.ext_xy <;> simp)]

theorem collideAllCubes_apart (cubes : List (SoftBody F))
    (h : ∀ (i j : Nat) (a b : SoftBody F), i < j →
      cubes[i]? = some a → cubes[j]? = some b → BoxesApart a b) :
    collideAllCubes cubes = some cubes := by
  unfold collideAllCubes
  apply foldlM_fixed
  intro i _
  apply foldlM_fixed
  intro j hj
  have hij : i < j := by
    have := (List.mem_range'_1.mp hj).1
    omega
  unfold collideCubes
  cases hi : cubes[i]? with
  | none => rfl
  | some a =>
    cases hjj : cubes[j]? with
    | none => rfl
    | some b =>
      simp only [SolveCubeCollision_apart a b (h i j a b hij hi hjj), Option.map_some']
      rw [set_of_getElem? cubes i a hi, set_of_getElem? cubes j b hjj]

/-- A world at rest in which every constraint holds is a fixed point of the
physics step when gravity is zero. -/
theorem physicsStep_at_rest (sqrt : F → F) (cfg : Params F) (dt : F)
    (cubes : List (SoftBody F)) (hc : ConstraintsSatisfied sqrt cfg cubes)
    (hr : ∀ b ∈ cubes, AtRest b) :
    physicsStep sqrt cfg ⟨0, 0⟩ dt cubes = some cubes := by
  unfold physicsStep
  rw [mapM'_fixed _ cubes fun b hb =>
    stepBody_at_rest sqrt cfg dt _ _ _ _ b (hc.1 b hb).1 (hc.1 b hb).2.1 (hc.1 b hb).2.2.1
      (hc.1 b hb).2.2.2 (hr b hb)]
  exact collideAllCubes_apart cubes hc.2

end FrameFixedPoints

/-! ## Two rods at rest -/

theorem rodLeft_eq : (rodLeft : SoftBody ℝ)
    = ⟨[⟨⟨100, 100⟩, ⟨100, 100⟩, ⟨0, 0⟩, false⟩, ⟨⟨130, 100⟩, ⟨130, 100⟩, ⟨0, 0⟩, false⟩],
       [⟨0, 1, 30⟩], [], 2, 1, 30⟩ := by
  simp [rodLeft, SoftBody.new, gridPos, Particle.new, List.range_succ, List.flatMap]
  norm_num

theorem rodRight_eq : (rodRight : SoftBody ℝ)
    = ⟨[⟨⟨200, 100⟩, ⟨200, 100⟩, ⟨0, 0⟩, false⟩, ⟨⟨230, 100⟩, ⟨230, 100⟩, ⟨0, 0⟩, false⟩],
       [⟨0, 1, 30⟩], [], 2, 1, 30⟩ := by
  simp [rodRight, SoftBody.new, gridPos, Particle.new, List.range_succ, List.flatMap]
  norm_num

/-- A two-particle body with one link whose endpoints are `d` apart on a
horizontal line inside the world bounds satisfies all its constraints when
the link has rest length `d ≥ 2 * radius`. -/
theorem rod_constraints (cfg : Params ℝ) (x y d : ℝ) (hd : 0 ≤ d)
    (hr : cfg.PARTICLE_RADIUS * 2 ≤ d)
    (hb : y ≤ 1000 - 50 ∧ 50 ≤ y ∧ 50 ≤ x ∧ x + d ≤ 1800 - 50) :
    SticksSatisfied Real.sqrt
      (⟨[⟨⟨x, y⟩, ⟨x, y⟩, ⟨0, 0⟩, false⟩, ⟨⟨x + d, y⟩, ⟨x + d, y⟩, ⟨0, 0⟩, false⟩],
        [⟨0, 1, d⟩], [], 2, 1, d⟩ : SoftBody ℝ) ∧
    QuadsSatisfied
      (⟨[⟨⟨x, y⟩, ⟨x, y⟩, ⟨0, 0⟩, false⟩, ⟨⟨x + d, y⟩, ⟨x + d, y⟩, ⟨0, 0⟩, false⟩],
        [⟨0, 1, d⟩], [], 2, 1, d⟩ : SoftBody ℝ) ∧
    InBounds (1000 - 50) 50 50 (1800 - 50)
      (⟨[⟨⟨x, y⟩, ⟨x, y⟩, ⟨0, 0⟩, false⟩, ⟨⟨x + d, y⟩, ⟨x + d, y⟩, ⟨0, 0⟩, false⟩],
        [⟨0, 1, d⟩], [], 2, 1, d⟩ : SoftBody ℝ) ∧
    PairsApart Real.sqrt cfg.PARTICLE_RADIUS
      (⟨[⟨⟨x, y⟩, ⟨x, y⟩, ⟨0, 0⟩, false⟩, ⟨⟨x + d, y⟩, ⟨x + d, y⟩, ⟨0, 0⟩, false⟩],
        [⟨0, 1, d⟩], [], 2, 1, d⟩ : SoftBody ℝ) ∧
    AtRest
      (⟨[⟨⟨x, y⟩, ⟨x, y⟩, ⟨0, 0⟩, false⟩, ⟨⟨x + d, y⟩, ⟨x + d, y⟩, ⟨0, 0⟩, false⟩],
        [⟨0, 1, d⟩], [], 2, 1, d⟩ : SoftBody ℝ) := by
  have hlen : Vec2.Length Real.sqrt ((⟨x + d, y⟩ : Vec2 ℝ) - ⟨x, y⟩) = d := by
    have h : ((⟨x + d, y⟩ : Vec2 ℝ) - ⟨x, y⟩).x * ((⟨x + d, y⟩ : Vec2 ℝ) - ⟨x, y⟩).x
        + ((⟨x + d, y⟩ : Vec2 ℝ) - ⟨x, y⟩).y * ((⟨x + d, y⟩ : Vec2 ℝ) - ⟨x, y⟩).y
        = d * d := by
      simp
    unfold Vec2.Length
    rw [h]
    exact real_isSqrt.sqrt_mul_self hd
  obtain ⟨b1, b2, b3, b4⟩ := hb
  refine ⟨?_, ?_, ?_, ?_, ?_⟩
  · intro s hs
    simp only [List.mem_singleton] at hs
    subst hs
    exact ⟨_, _, rfl, rfl, hlen⟩
  · intro q hq
    simp at hq
  · intro p hp
    simp only [List.mem_cons, List.mem_singleton, List.not_mem_nil, or_false] at hp
    rcases hp with rfl | rfl
    · exact ⟨b1, b2, b3, by show x ≤ 1800 - 50; linarith⟩
    · exact ⟨b1, b2, by show 50 ≤ x + d; linarith, b4⟩
  · intro j k p q hjk hp hq
    have hk : k < 2 := by
      obtain ⟨h, -⟩ := List.getElem?_eq_some.mp hq
      simpa using h
    have hj0 : j = 0 := by omega
    have hk1 : k = 1 := by omega
    subst hj0 hk1
    simp only [List.getElem?_cons_zero, List.getElem?_cons_succ, Option.some.injEq] at hp hq
    subst hp hq
    rw [hlen]
    exact hr
  · intro p hp _
    simp only [List.mem_cons, List.mem_singleton, List.not_mem_nil, or_false] at hp
    rcases hp with rfl | rfl <;> exact ⟨rfl, rfl⟩

theorem rods_satisfied :
    ConstraintsSatisfied Real.sqrt defaultParams [(rodLeft : SoftBody ℝ), rodRight] ∧
    ∀ b ∈ [(rodLeft : SoftBody ℝ), rodRight], AtRest b := by
  have hL := rod_constraints defaultParams 100 100 30 (by norm_num)
    (by norm_num [defaultParams]) (by norm_num)
  have hR := rod_constraints defaultParams 200 100 30 (by norm_num)
    (by norm_num [defaultParams]) (by norm_num)
  have e1 : (100 : ℝ) + 30 = 130 := by norm_num
  have e2 : (200 : ℝ) + 30 = 230 := by norm_num
  rw [e1] at hL
  rw [e2] at hR
  rw [rodLeft_eq, rodRight_eq]
  refine ⟨⟨?_, ?_⟩, ?_⟩
  · intro b hb
    simp only [List.mem_cons, List.mem_singleton, List.not_mem_nil, or_false] at hb
    rcases hb with rfl | rfl
    · exact ⟨hL.1, hL.2.1, hL.2.2.1, hL.2.2.2.1⟩
    · exact ⟨hR.1, hR.2.1, hR.2.2.1, hR.2.2.2.1⟩
  · intro i j a b hij ha hb
    have hj : j < 2 := by
      obtain ⟨h, -⟩ := List.getElem?_eq_some.mp hb
      simpa using h
    have hi0 : i = 0 := by omega
    have hj1 : j = 1 := by omega
    subst hi0 hj1
    simp only [List.getElem?_cons_zero, List.getElem?_cons_succ, Option.some.injEq] at ha hb
    subst ha hb
    refine ⟨⟨⟨100, 100⟩, ⟨100, 100⟩, ⟨0, 0⟩, false⟩, ⟨⟨130, 100⟩, ⟨130, 100⟩, ⟨0, 0⟩, false⟩,
      ⟨⟨100, 100⟩, ⟨100, 100⟩, ⟨0, 0⟩, false⟩, ⟨⟨200, 100⟩, ⟨200, 100⟩, ⟨0, 0⟩, false⟩,
      ⟨⟨230, 100⟩, ⟨230, 100⟩, ⟨0, 0⟩, false⟩, ⟨⟨200, 100⟩, ⟨200, 100⟩, ⟨0, 0⟩, false⟩,
      ?_, ?_, ?_, ?_, ?_, ?_, ?_⟩
    · simp [SoftBody.particleAt]
    · simp [SoftBody.particleAt]
    · simp [SoftBody.particleAt]
    · simp [SoftBody.particleAt]
    · simp [SoftBody.particleAt]
    · simp [SoftBody.particleAt]
    · left; norm_num
  · intro b hb
    simp only [List.mem_cons, List.mem_singleton, List.not_mem_nil, or_false] at hb
    rcases hb with rfl | rfl
    · exact hL.2.2.2.2
    · exact hR.2.2.2.2

/-! ## Frame lemmas for the pair solvers and the centroid -/

section PairLemmas

variable {F : Type} [LinearOrderedField F]

/-- On a body with at least one particle the checked centroid is the centroid. -/
theorem GetCenterChecked_of_ne_nil (b : SoftBody F) (h : b.particles ≠ []) :
    b.GetCenterChecked = some b.GetCenter := by
  have hlen : (b.particles.length : F) ≠ 0 := by
    have : b.particles.length ≠ 0 := fun h0 => h (List.length_eq_zero.mp h0)
    exact_mod_cast this
  simp [SoftBody.GetCenterChecked, SoftBody.GetCenter, Vec2.checkedDiv, hlen]

theorem SolveStick_frame (sqrt : F → F) (cfg : Params F) (rest : F) (p1 p2 : Particle F) :
    (SolveStick sqrt cfg rest p1 p2).1.oldPosition = p1.oldPosition ∧
    (SolveStick sqrt cfg rest p1 p2).2.oldPosition = p2.oldPosition ∧
    (SolveStick sqrt cfg rest p1 p2).1.acceleration = p1.acceleration ∧
    (SolveStick sqrt cfg rest p1 p2).2.acceleration = p2.acceleration := by
  unfold SolveStick
  simp only []
  split_ifs <;> exact ⟨rfl, rfl, rfl, rfl⟩

theorem SolveParticleCollision_frame (sqrt : F → F) (a b : Particle F) (radius : F) :
    (SolveParticleCollision sqrt a b radius).1.oldPosition = a.oldPosition ∧
    (SolveParticleCollision sqrt a b radius).2.oldPosition = b.oldPosition ∧
    (SolveParticleCollision sqrt a b radius).1.acceleration = a.acceleration ∧
    (SolveParticleCollision sqrt a b radius).2.acceleration = b.acceleration := by
  unfold SolveParticleCollision
  simp only []
  split_ifs <;> exact ⟨rfl, rfl, rfl, rfl⟩

end PairLemmas

/-! ## Lemmas on cells -/

/-- Reading the particle list after the four writes of `SolveShapeMatching`. -/
theorem quad_writes_read {F : Type} (ps : List (Particle F)) (q : Quad F) (a n : Fin 4 → Particle F)
    (hread : ∀ i, ps[q.point i]? = some (a i)) (hinj : Function.Injective q.point) :
    (∀ i, ((((ps.set q.p0 (n 0)).set q.p1 (n 1)).set q.p2 (n 2)).set q.p3 (n 3))[q.point i]?
        = some (n i)) ∧
    ∀ j, (∀ i, j ≠ q.point i) →
      ((((ps.set q.p0 (n 0)).set q.p1 (n 1)).set q.p2 (n 2)).set q.p3 (n 3))[j]? = ps[j]? := by
  have l0 : q.p0 < ps.length := (List.getElem?_eq_some.mp (hread 0)).1
  have l1 : q.p1 < ps.length := (List.getElem?_eq_some.mp (hread 1)).1
  have l2 : q.p2 < ps.length := (List.getElem?_eq_some.mp (hread 2)).1
  have l3 : q.p3 < ps.length := (List.getElem?_eq_some.mp (hread 3)).1
  have n01 : q.p0 ≠ q.p1 := fun h => absurd (@hinj 0 1 h) (by decide)
  have n02 : q.p0 ≠ q.p2 := fun h => absurd (@hinj 0 2 h) (by decide)
  have n03 : q.p0 ≠ q.p3 := fun h => absurd (@hinj 0 3 h) (by decide)
  have n12 : q.p1 ≠ q.p2 := fun h => absurd (@hinj 1 2 h) (by decide)
  have n13 : q.p1 ≠ q.p3 := fun h => absurd (@hinj 1 3 h) (by decide)
  have n23 : q.p2 ≠ q.p3 := fun h => absurd (@hinj 2 3 h) (by decide)
  constructor
  · intro i
    fin_cases i
    · show (_ : List (Particle F))[q.p0]? = some (n 0)
      rw [List.getElem?_set_ne n03.symm, List.getElem?_set_ne n02.symm,
        List.getElem?_set_ne n01.symm, List.getElem?_set_self l0]
    · show (_ : List (Particle F))[q.p1]? = some (n 1)
      rw [List.getElem?_set_ne n13.symm, List.getElem?_set_ne n12.symm,
        List.getElem?_set_self (by simpa using l1)]
    · show (_ : List (Particle F))[q.p2]? = some (n 2)
      rw [List.getElem?_set_ne n23.symm, List.getElem?_set_self (by simpa using l2)]
    · show (_ : List (Particle F))[q.p3]? = some (n 3)
      rw [List.getElem?_set_self (by simpa using l3)]
  · intro j hj
    have j0 : q.p0 ≠ j := fun h => hj 0 h.symm
    have j1 : q.p1 ≠ j := fun h => hj 1 h.symm
    have j2 : q.p2 ≠ j := fun h => hj 2 h.symm
    have j3 : q.p3 ≠ j := fun h => hj 3 h.symm
    rw [List.getElem?_set_ne j3, List.getElem?_set_ne j2, List.getElem?_set_ne j1,
      List.getElem?_set_ne j0]

section QuadLemmas

variable {F : Type} [LinearOrderedField F]

theorem addPosition_eq_set (ps : List (Particle F)) (i : Nat) (p : Particle F) (m : Vec2 F)
    (h : ps[i]? = some p) : addPosition ps i m = some (ps.set i (movedBy p m)) := by
  simp only [addPosition, h, movedBy]
  split_ifs
  · rw [set_of_getElem? ps i p h]
  · rfl

theorem clampMove_eq_clampSpec (sqrt : F → F) (cfg : Params F) (d : Vec2 F) :
    clampMove sqrt cfg d = clampSpec sqrt cfg.MAX_MOVE d := by
  unfold clampMove clampSpec
  by_cases h : Vec2.Length sqrt d ≤ cfg.MAX_MOVE
  · rw [if_neg (not_lt.mpr h), if_pos h]
  · rw [if_pos (not_le.mp h), if_neg h]
    by_cases h0 : Vec2.Length sqrt d = 0
    · apply Vec2.ext_xy <;> simp [Vec2.Normalized, h0]
    · apply Vec2.ext_xy <;> simp [Vec2.Normalized, h0] <;> ring

/-- `SolveShapeMatching` on a cell whose four references are valid and
pairwise distinct: each referenced particle gets its own clamped move. -/
theorem SolveShapeMatching_distinct (sqrt : F → F) (cfg : Params F) (ps : List (Particle F))
    (q : Quad F) (a : Fin 4 → Particle F) (hread : ∀ i, ps[q.point i]? = some (a i))
    (hinj : Function.Injective q.point) :
    SolveShapeMatching sqrt cfg ps q
      = some ((((ps.set q.p0 (movedBy (a 0) (clampSpec sqrt cfg.MAX_MOVE
                  ((centroid4 a + q.offset0 - (a 0).position) * cfg.SHAPE_STIFF)))).set
                q.p1 (movedBy (a 1) (clampSpec sqrt cfg.MAX_MOVE
                  ((centroid4 a + q.offset1 - (a 1).position) * cfg.SHAPE_STIFF)))).set
                q.p2 (movedBy (a 2) (clampSpec sqrt cfg.MAX_MOVE
                  ((centroid4 a + q.offset2 - (a 2).position) * cfg.SHAPE_STIFF)))).set
                q.p3 (movedBy (a 3) (clampSpec sqrt cfg.MAX_MOVE
                  ((centroid4 a + q.offset3 - (a 3).position) * cfg.SHAPE_STIFF)))) := by
  have h0 : ps[q.p0]? = some (a 0) := hread 0
  have h1 : ps[q.p1]? = some (a 1) := hread 1
  have h2 : ps[q.p2]? = some (a 2) := hread 2
  have h3 : ps[q.p3]? = some (a 3) := hread 3
  have n01 : q.p0 ≠ q.p1 := fun h => absurd (@hinj 0 1 h) (by decide)
  have n02 : q.p0 ≠ q.p2 := fun h => absurd (@hinj 0 2 h) (by decide)
  have n03 : q.p0 ≠ q.p3 := fun h => absurd (@hinj 0 3 h) (by decide)
  have n12 : q.p1 ≠ q.p2 := fun h => absurd (@hinj 1 2 h) (by decide)
  have n13 : q.p1 ≠ q.p3 := fun h => absurd (@hinj 1 3 h) (by decide)
  have n23 : q.p2 ≠ q.p3 := fun h => absurd (@hinj 2 3 h) (by decide)
  simp only [SolveShapeMatching, h0, h1, h2, h3, clampMove_eq_clampSpec]
  rw [addPosition_eq_set ps q.p0 (a 0) _ h0, Option.some_bind,
    addPosition_eq_set _ q.p1 (a 1) _ (by rw [List.getElem?_set_ne n01]; exact h1),
    Option.some_bind,
    addPosition_eq_set _ q.p2 (a 2) _
      (by rw [List.getElem?_set_ne n12, List.getElem?_set_ne n02]; exact h2),
    Option.some_bind,
    addPosition_eq_set _ q.p3 (a 3) _
      (by rw [List.getElem?_set_ne n23, List.getElem?_set_ne n13, List.getElem?_set_ne n03]
          exact h3)]
  rfl

/-- The clamped move is never longer than `MAX_MOVE`. -/
theorem clampSpec_length_le {sqrt : F → F} (hs : IsSqrt sqrt) (maxMove : F)
    (hM : 0 ≤ maxMove) (d : Vec2 F) :
    Vec2.Length sqrt (clampSpec sqrt maxMove d) ≤ maxMove := by
  unfold clampSpec
  by_cases h : Vec2.Length sqrt d ≤ maxMove
  · rw [if_pos h]; exact h
  · rw [if_neg h]
    have hpos : 0 < Vec2.Length sqrt d := lt_of_le_of_lt hM (not_le.mp h)
    have e : d * maxMove / Vec2.Length sqrt d = d * (maxMove / Vec2.Length sqrt d) := by
      apply Vec2.ext_xy <;> simp <;> ring
    rw [e, Vec2.Length_smul hs d (div_nonneg hM hpos.le)]
    apply le_of_eq
    field_simp

theorem movedBy_step_length {sqrt : F → F} (hs : IsSqrt sqrt) (maxMove : F)
    (hM : 0 ≤ maxMove) (p : Particle F) (d : Vec2 F) :
    Vec2.Length sqrt ((movedBy p (clampSpec sqrt maxMove d)).position - p.position)
      ≤ maxMove := by
  unfold movedBy
  split_ifs
  · have e : p.position - p.position = (⟨0, 0⟩ : Vec2 F) := by
      apply Vec2.ext_xy <;> simp
    rw [e]
    have : Vec2.Length sqrt (⟨0, 0⟩ : Vec2 F) = 0 := by
      rw [Vec2.Length_eq_zero hs]; exact ⟨rfl, rfl⟩
    rw [this]; exact hM
  · have e : p.position + clampSpec sqrt maxMove d - p.position = clampSpec sqrt maxMove d := by
      apply Vec2.ext_xy <;> simp
    show Vec2.Length sqrt (p.position + clampSpec sqrt maxMove d - p.position) ≤ maxMove
    rw [e]
    exact clampSpec_length_le hs maxMove hM d

theorem restQuad_injective : Function.Injective (restQuad : Quad F).point := by
  intro i j h
  fin_cases i <;> fin_cases j <;> simp [restQuad, Quad.point] at h ⊢

theorem restQuad_read (a : Fin 4 → Particle F) (i : Fin 4) :
    [a 0, a 1, a 2, a 3][(restQuad : Quad F).point i]? = some (a i) := by
  fin_cases i <;> rfl

theorem cubeRight_quads : (cubeRight : SoftBody F).quads = [restQuad] := by
  simp [cubeRight, SoftBody.new, gridPos, List.range_succ, List.flatMap, restQuad]
  refine ⟨?_, ?_, ?_, ?_⟩ <;> apply Vec2.ext_xy <;> simp <;> ring

end QuadLemmas

/-! ## Facts about the concrete cells and bodies -/

theorem pulled_unclamped (i : Fin 4) :
    Vec2.Length Real.sqrt
        ((centroid4 (pulledCorners : Fin 4 → Particle ℝ) + (restQuad : Quad ℝ).offset i
            - (pulledCorners i).position) * (defaultParams : Params ℝ).SHAPE_STIFF)
      ≤ (defaultParams : Params ℝ).MAX_MOVE := by
  unfold Vec2.Length
  rw [Real.sqrt_le_iff]
  fin_cases i <;>
    norm_num [centroid4, pulledCorners, restQuad, Quad.offset, defaultParams, Particle.new,
      Vec2.mk_add, Vec2.mk_sub, Vec2.mk_smul, Vec2.mk_sdiv]

theorem cube_corners :
    (cubeRight : SoftBody ℚ).particleAt 0 = some (Particle.new ⟨310, 300⟩) ∧
    (cubeRight : SoftBody ℚ).particleAt ((cubeRight : SoftBody ℚ).cols - 1)
      = some (Particle.new ⟨340, 300⟩) ∧
    (cubeRight : SoftBody ℚ).particleAt
        (((cubeRight : SoftBody ℚ).rows - 1) * (cubeRight : SoftBody ℚ).cols)
      = some (Particle.new ⟨310, 330⟩) ∧
    (cubeLeft : SoftBody ℚ).particleAt 0 = some (Particle.new ⟨282, 300⟩) ∧
    (cubeLeft : SoftBody ℚ).particleAt ((cubeLeft : SoftBody ℚ).cols - 1)
      = some (Particle.new ⟨312, 300⟩) ∧
    (cubeLeft : SoftBody ℚ).particleAt
        (((cubeLeft : SoftBody ℚ).rows - 1) * (cubeLeft : SoftBody ℚ).cols)
      = some (Particle.new ⟨282, 330⟩) := by
  refine ⟨?_, ?_, ?_, ?_, ?_, ?_⟩ <;>
    simp [cubeRight, cubeLeft, SoftBody.new, SoftBody.particleAt, gridPos, Particle.new,
      List.range_succ, List.flatMap] <;> norm_num

/-! ## The grab loop keeps its invariant -/

section GrabLemmas

variable {F : Type} [LinearOrderedField F]

theorem FLT_MAX_ge : (400 : F) ≤ FLT_MAX := by
  unfold FLT_MAX; norm_num

theorem GrabInv.congr {mousePos : Vec2 F} {acc : F × Option (Nat × Nat)}
    {Seen Seen' : Nat × Nat → Particle F → Prop} (h : ∀ g p, Seen' g p ↔ Seen g p)
    (hi : GrabInv mousePos acc Seen) : GrabInv mousePos acc Seen' := by
  obtain ⟨h1, h2⟩ := hi
  refine ⟨fun hn => ⟨(h1 hn).1, fun g p hs => (h1 hn).2 g p ((h g p).mp hs)⟩, fun g hg => ?_⟩
  obtain ⟨a, ⟨p, hp, hd⟩, c⟩ := h2 g hg
  exact ⟨a, ⟨p, (h g p).mpr hp, hd⟩, fun g' p' hs => c g' p' ((h g' p').mp hs)⟩

theorem GrabInv.step {mousePos : Vec2 F} {acc : F × Option (Nat × Nat)}
    {Seen : Nat × Nat → Particle F → Prop} (hi : GrabInv mousePos acc Seen)
    (addr : Nat) (ip : Nat × Particle F) :
    GrabInv mousePos (grabStep mousePos addr acc ip)
      (fun g p => Seen g p ∨ (g = (addr, ip.1) ∧ p = ip.2)) := by
  obtain ⟨h1, h2⟩ := hi
  have hd : grabStep mousePos addr acc ip
      = if distSq mousePos ip.2 < acc.1 ∧ distSq mousePos ip.2 < 400
        then (distSq mousePos ip.2, some (addr, ip.1)) else acc := rfl
  rw [hd]
  have hacc : ∀ g' p', Seen g' p' → min acc.1 400 ≤ distSq mousePos p' := by
    intro g' p' hs
    cases hr : acc.2 with
    | none => exact le_trans (min_le_right _ _) ((h1 hr).2 g' p' hs)
    | some g => exact le_trans (min_le_left _ _) ((h2 g hr).2.2 g' p' hs)
  by_cases hc : distSq mousePos ip.2 < acc.1 ∧ distSq mousePos ip.2 < 400
  · rw [if_pos hc]
    refine ⟨fun hn => by simp at hn, fun g hg => ?_⟩
    simp only [Option.some.injEq] at hg
    subst hg
    refine ⟨hc.2, ⟨ip.2, Or.inr ⟨rfl, rfl⟩, rfl⟩, ?_⟩
    rintro g' p' (hs | ⟨-, rfl⟩)
    · exact le_trans (le_min hc.1.le hc.2.le) (hacc g' p' hs)
    · exact le_refl _
  · rw [if_neg hc]
    refine ⟨fun hn => ⟨(h1 hn).1, ?_⟩, fun g hg => ?_⟩
    · rintro g p (hs | ⟨-, rfl⟩)
      · exact (h1 hn).2 g p hs
      · by_contra hlt
        push_neg at hlt
        apply hc
        refine ⟨?_, hlt⟩
        rw [(h1 hn).1]
        exact lt_of_lt_of_le hlt FLT_MAX_ge
    · obtain ⟨a, ⟨p, hp, hpd⟩, c⟩ := h2 g hg
      refine ⟨a, ⟨p, Or.inl hp, hpd⟩, ?_⟩
      rintro g' p' (hs | ⟨-, rfl⟩)
      · exact c g' p' hs
      · by_contra hlt
        push_neg at hlt
        exact hc ⟨hlt, lt_trans hlt a⟩

theorem GrabInv.inner {mousePos : Vec2 F} (addr : Nat) :
    ∀ (l : List (Nat × Particle F)) (acc : F × Option (Nat × Nat))
      (Seen : Nat × Nat → Particle F → Prop), GrabInv mousePos acc Seen →
      GrabInv mousePos (l.foldl (grabStep mousePos addr) acc)
        (fun g p => Seen g p ∨ ∃ i, g = (addr, i) ∧ (i, p) ∈ l)
  | [], acc, Seen, hi => by
    refine GrabInv.congr (fun g p => ?_) hi
    simp
  | ip :: l, acc, Seen, hi => by
    rw [List.foldl_cons]
    refine GrabInv.congr (fun g p => ?_) (GrabInv.inner addr l _ _ (hi.step addr ip))
    constructor
    · rintro (hs | ⟨i, hg, hm⟩)
      · exact Or.inl (Or.inl hs)
      · rcases List.mem_cons.mp hm with he | hm'
        · left; right
          rw [hg, ← he]
          exact ⟨rfl, rfl⟩
        · exact Or.inr ⟨i, hg, hm'⟩
    · rintro ((hs | ⟨hg, hp⟩) | ⟨i, hg, hm⟩)
      · exact Or.inl hs
      · refine Or.inr ⟨ip.1, hg, ?_⟩
        rw [hp]
        exact List.mem_cons_self _ _
      · exact Or.inr ⟨i, hg, List.mem_cons_of_mem _ hm⟩

theorem GrabInv.outer {mousePos : Vec2 F} :
    ∀ (cs : List (Nat × SoftBody F)) (acc : F × Option (Nat × Nat))
      (Seen : Nat × Nat → Particle F → Prop), GrabInv mousePos acc Seen →
      GrabInv mousePos
        (cs.foldl (fun acc c => c.2.particles.enum.foldl (grabStep mousePos c.1) acc) acc)
        (fun g p => Seen g p ∨ ∃ c ∈ cs, ∃ i, g = (c.1, i) ∧ (i, p) ∈ c.2.particles.enum)
  | [], acc, Seen, hi => by
    refine GrabInv.congr (fun g p => ?_) hi
    simp
  | c :: cs, acc, Seen, hi => by
    rw [List.foldl_cons]
    refine GrabInv.congr (fun g p => ?_)
      (GrabInv.outer cs _ _ (GrabInv.inner c.1 c.2.particles.enum _ _ hi))
    constructor
    · rintro (hs | ⟨c', hc', i, hg, hm⟩)
      · exact Or.inl (Or.inl hs)
      · rcases List.mem_cons.mp hc' with he | hc''
        · subst he
          exact Or.inl (Or.inr ⟨i, hg, hm⟩)
        · exact Or.inr ⟨c', hc'', i, hg, hm⟩
    · rintro ((hs | ⟨i, hg, hm⟩) | ⟨c', hc', i, hg, hm⟩)
      · exact Or.inl hs
      · exact Or.inr ⟨c, List.mem_cons_self _ _, i, hg, hm⟩
      · exact Or.inr ⟨c', List.mem_cons_of_mem _ hc', i, hg, hm⟩

/-- The state of the grab loop after the press handler has visited every
particle of every body. -/
theorem handlePress_inv (mousePos : Vec2 F) (w : World F) :
    GrabInv mousePos
      (w.cubes.foldl (fun acc c => c.2.particles.enum.foldl (grabStep mousePos c.1) acc)
        (FLT_MAX, none))
      (fun g p => ∃ c ∈ w.cubes, c.1 = g.1 ∧ c.2.particles[g.2]? = some p) := by
  have h0 : GrabInv mousePos ((FLT_MAX, none) : F × Option (Nat × Nat)) (fun _ _ => False) :=
    ⟨fun _ => ⟨rfl, fun _ _ h => h.elim⟩, fun g hg => by simp at hg⟩
  refine GrabInv.congr (fun g p => ?_) (GrabInv.outer w.cubes _ _ h0)
  constructor
  · rintro ⟨c, hc, h1, h2⟩
    refine Or.inr ⟨c, hc, g.2, ?_, List.mk_mem_enum_iff_getElem?.mpr h2⟩
    rw [h1]
  · rintro (h | ⟨c, hc, i, hg, hm⟩)
    · exact h.elim
    · refine ⟨c, hc, ?_, ?_⟩
      · rw [hg]
      · rw [hg]; exact List.mk_mem_enum_iff_getElem?.mp hm

theorem distSq_lt_iff {sqrt : F → F} (hs : IsSqrt sqrt) (mousePos : Vec2 F) (p : Particle F) :
    Vec2.Length sqrt (p.position - mousePos) < 20 ↔ distSq mousePos p < 400 := by
  have h0 := Vec2.Length_nonneg hs (p.position - mousePos)
  have h1 : Vec2.Length sqrt (p.position - mousePos) * Vec2.Length sqrt (p.position - mousePos)
      = distSq mousePos p := by
    rw [Vec2.Length_mul_self hs]; rfl
  constructor
  · intro h; nlinarith
  · intro h; by_contra hn; push_neg at hn; nlinarith

theorem Length_le_of_distSq_le {sqrt : F → F} (hs : IsSqrt sqrt) (mousePos : Vec2 F)
    (p p' : Particle F) (h : distSq mousePos p ≤ distSq mousePos p') :
    Vec2.Length sqrt (p.position - mousePos) ≤ Vec2.Length sqrt (p'.position - mousePos) := by
  have h0 := Vec2.Length_nonneg hs (p.position - mousePos)
  have h0' := Vec2.Length_nonneg hs (p'.position - mousePos)
  have h1 : Vec2.Length sqrt (p.position - mousePos) * Vec2.Length sqrt (p.position - mousePos)
      = distSq mousePos p := by
    rw [Vec2.Length_mul_self hs]; rfl
  have h1' : Vec2.Length sqrt (p'.position - mousePos)
        * Vec2.Length sqrt (p'.position - mousePos) = distSq mousePos p' := by
    rw [Vec2.Length_mul_self hs]; rfl
  by_contra hn
  push_neg at hn
  nlinarith

end GrabLemmas

/-! ## What the constructor builds -/

theorem flatMap_range_succ {β : Type} (g : Nat → List β) (n : Nat) :
    (List.range (n + 1)).flatMap g = (List.range n).flatMap g ++ g n := by
  rw [List.range_succ, List.flatMap_append]
  simp

theorem length_flatMap_range {β : Type} (g : Nat → List β) (k : Nat) :
    ∀ n, (∀ x, x < n → (g x).length = k) → ((List.range n).flatMap g).length = n * k
  | 0, _ => by simp
  | n + 1, h => by
    rw [flatMap_range_succ, List.length_append,
      length_flatMap_range g k n (fun x hx => h x (Nat.lt_succ_of_lt hx)),
      h n (Nat.lt_succ_self n)]
    ring

/-- Row-major indexing of a grid built row by row. -/
theorem grid_getElem? {β : Type} (f : Nat → Nat → β) (cols : Nat) :
    ∀ rows x y, x < cols → y < rows →
      ((List.range rows).flatMap fun y => (List.range cols).map fun x => f x y)[y * cols + x]?
        = some (f x y)
  | 0, _, _, _, hy => absurd hy (Nat.not_lt_zero _)
  | rows + 1, x, y, hx, hy => by
    have hlen : ((List.range rows).flatMap fun y => (List.range cols).map fun x => f x y).length
        = rows * cols :=
      length_flatMap_range _ cols rows (fun _ _ => by simp)
    rw [flatMap_range_succ]
    rcases Nat.lt_succ_iff_lt_or_eq.mp hy with h | h
    · rw [List.getElem?_append_left]
      · exact grid_getElem? f cols rows x y hx h
      · rw [hlen]
        calc y * cols + x < y * cols + cols := by omega
          _ = (y + 1) * cols := by ring
          _ ≤ rows * cols := Nat.mul_le_mul_right cols h
    · subst h
      rw [List.getElem?_append_right (by rw [hlen]; omega), hlen]
      simp [hx]

section ConstructorLemmas

variable {F : Type} [LinearOrderedField F]

theorem new_particles (rx ry : Nat → Nat) (startX startY : F) (c r : Int) (s : F) :
    (SoftBody.new rx ry startX startY c r s).particles.length = c.toNat * r.toNat ∧
    (∀ x y, x < c.toNat → y < r.toNat →
      (SoftBody.new rx ry startX startY c r s).particles[y * c.toNat + x]?
        = some (Particle.new (gridPos startX startY s (rx (y * c.toNat + x))
            (ry (y * c.toNat + x)) x y))) ∧
    ∀ p ∈ (SoftBody.new rx ry startX startY c r s).particles,
      p.oldPosition = p.position ∧ p.acceleration = ⟨0, 0⟩ ∧ p.pinned = false := by
  refine ⟨?_, ?_, ?_⟩
  · simp only [SoftBody.new]
    rw [length_flatMap_range _ c.toNat r.toNat (fun _ _ => by simp)]
    ring
  · intro x y hx hy
    simp only [SoftBody.new]
    exact grid_getElem?
      (fun x y => Particle.new (gridPos startX startY s (rx (y * c.toNat + x))
        (ry (y * c.toNat + x)) x y)) c.toNat r.toNat x y hx hy
  · intro p hp
    simp only [SoftBody.new, List.mem_flatMap, List.mem_map] at hp
    obtain ⟨y, -, x, -, rfl⟩ := hp
    exact ⟨rfl, rfl, rfl⟩

theorem new_sticks_mem (rx ry : Nat → Nat) (startX startY : F) (c r : Int) (s : F)
    (st : Stick F) :
    st ∈ (SoftBody.new rx ry startX startY c r s).sticks ↔
      ∃ x y, x < c.toNat ∧ y < r.toNat ∧
        ((x + 1 < c.toNat ∧ st = ⟨y * c.toNat + x, y * c.toNat + x + 1, s⟩) ∨
         (y + 1 < r.toNat ∧ st = ⟨y * c.toNat + x, y * c.toNat + x + c.toNat, s⟩) ∨
         (x + 1 < c.toNat ∧ y + 1 < r.toNat ∧
           (st = ⟨y * c.toNat + x, y * c.toNat + x + c.toNat + 1, s * 1.4142⟩ ∨
            st = ⟨y * c.toNat + x + 1, y * c.toNat + x + c.toNat, s * 1.4142⟩))) := by
  have e1 : ∀ x : Nat, ((x : Int) < c - 1) ↔ x + 1 < c.toNat := fun x => by omega
  have e2 : ∀ y : Nat, ((y : Int) < r - 1) ↔ y + 1 < r.toNat := fun y => by omega
  simp only [SoftBody.new, List.mem_flatMap, List.mem_range, List.mem_append, e1, e2]
  constructor
  · rintro ⟨y, hy, x, hx, h⟩
    refine ⟨x, y, hx, hy, ?_⟩
    rcases h with (h | h) | h
    · split_ifs at h with hc
      · exact Or.inl ⟨hc, by simpa using h⟩
      · simp at h
    · split_ifs at h with hc
      · exact Or.inr (Or.inl ⟨hc, by simpa using h⟩)
      · simp at h
    · split_ifs at h with hc
      · exact Or.inr (Or.inr ⟨hc.1, hc.2, by simpa using h⟩)
      · simp at h
  · rintro ⟨x, y, hx, hy, h⟩
    refine ⟨y, hy, x, hx, ?_⟩
    rcases h with ⟨hc, rfl⟩ | ⟨hc, rfl⟩ | ⟨hc1, hc2, h⟩
    · left; left; simp [hc]
    · left; right; simp [hc]
    · right; rw [if_pos ⟨hc1, hc2⟩]; simpa using h

theorem new_sticks_length (rx ry : Nat → Nat) (startX startY : F) (c r : Int) (s : F)
    (hc : 1 ≤ c) (hr : 1 ≤ r) :
    (SoftBody.new rx ry startX startY c r s).sticks.length
      = (c.toNat - 1) * r.toNat + c.toNat * (r.toNat - 1)
          + 2 * (c.toNat - 1) * (r.toNat - 1) := by
  obtain ⟨m, hm⟩ : ∃ m, c.toNat = m + 1 := ⟨c.toNat - 1, by omega⟩
  obtain ⟨n, hn⟩ : ∃ n, r.toNat = n + 1 := ⟨r.toNat - 1, by omega⟩
  have e1 : ∀ x : Nat, ((x : Int) < c - 1) ↔ x < m := fun x => by omega
  have e2 : ∀ y : Nat, ((y : Int) < r - 1) ↔ y < n := fun y => by omega
  simp only [SoftBody.new, hm, hn, e1, e2]
  have hrow : ∀ y, y < n → ((List.range (m + 1)).flatMap fun x =>
      (if x < m then [(⟨y * (m + 1) + x, y * (m + 1) + x + 1, s⟩ : Stick F)] else []) ++
      (if y < n then [(⟨y * (m + 1) + x, y * (m + 1) + x + (m + 1), s⟩ : Stick F)] else []) ++
      (if x < m ∧ y < n then
        [(⟨y * (m + 1) + x, y * (m + 1) + x + (m + 1) + 1, s * 1.4142⟩ : Stick F),
         ⟨y * (m + 1) + x + 1, y * (m + 1) + x + (m + 1), s * 1.4142⟩] else [])).length
      = 4 * m + 1 := by
    intro y hy
    rw [flatMap_range_succ, List.length_append,
      length_flatMap_range _ 4 m (fun x hx => by simp [hx, hy])]
    simp [hy]
    ring
  have hlast : ((List.range (m + 1)).flatMap fun x =>
      (if x < m then [(⟨n * (m + 1) + x, n * (m + 1) + x + 1, s⟩ : Stick F)] else []) ++
      (if n < n then [(⟨n * (m + 1) + x, n * (m + 1) + x + (m + 1), s⟩ : Stick F)] else []) ++
      (if x < m ∧ n < n then
        [(⟨n * (m + 1) + x, n * (m + 1) + x + (m + 1) + 1, s * 1.4142⟩ : Stick F),
         ⟨n * (m + 1) + x + 1, n * (m + 1) + x + (m + 1), s * 1.4142⟩] else [])).length
      = m := by
    rw [flatMap_range_succ, List.length_append,
      length_flatMap_range _ 1 m (fun x hx => by simp [hx])]
    simp
  rw [flatMap_range_succ, List.length_append, length_flatMap_range _ (4 * m + 1) n hrow, hlast]
  simp only [Nat.add_sub_cancel]
  ring

theorem new_quads (rx ry : Nat → Nat) (startX startY : F) (c r : Int) (s : F) :
    (SoftBody.new rx ry startX startY c r s).quads.length
      = (c.toNat - 1) * (r.toNat - 1) ∧
    (∀ x y, x + 1 < c.toNat → y + 1 < r.toNat →
      ∃ q, (SoftBody.new rx ry startX startY c r s).quads[y * (c.toNat - 1) + x]? = some q ∧
        q.p0 = y * c.toNat + x ∧ q.p1 = y * c.toNat + x + 1 ∧
        q.p2 = (y + 1) * c.toNat + x ∧ q.p3 = (y + 1) * c.toNat + x + 1) ∧
    ∀ q ∈ (SoftBody.new rx ry startX startY c r s).quads,
      ∃ x y, x + 1 < c.toNat ∧ y + 1 < r.toNat ∧
        q.p0 = y * c.toNat + x ∧ q.p1 = y * c.toNat + x + 1 ∧
        q.p2 = (y + 1) * c.toNat + x ∧ q.p3 = (y + 1) * c.toNat + x + 1 := by
  have ec : (c - 1).toNat = c.toNat - 1 := by omega
  have er : (r - 1).toNat = r.toNat - 1 := by omega
  refine ⟨?_, ?_, ?_⟩
  · simp only [SoftBody.new, ec, er]
    rw [length_flatMap_range _ (c.toNat - 1) (r.toNat - 1) (fun _ _ => by simp)]
    ring
  · intro x y hx hy
    simp only [SoftBody.new, ec, er]
    rw [grid_getElem? _ (c.toNat - 1) (r.toNat - 1) x y (by omega) (by omega)]
    exact ⟨_, rfl, rfl, rfl, by ring, by ring⟩
  · intro q hq
    simp only [SoftBody.new, ec, er, List.mem_flatMap, List.mem_map, List.mem_range] at hq
    obtain ⟨y, hy, x, hx, rfl⟩ := hq
    exact ⟨x, y, by omega, by omega, rfl, rfl, by ring, by ring⟩

end ConstructorLemmas

/-! ## The links of a 2x2 block cannot all be at rest -/

section BlockLemmas

variable {F : Type} [LinearOrderedField F]

/-- Four points of the plane cannot have the four sides `AB`, `AC`, `BD`, `CD`
of squared length `t` and the two diagonals `AD`, `BC` of squared length
`k * t` unless `t = 0`, `k = 0` or `k = 2`: the Gram determinant of `B - A`,
`C - A`, `D - A` vanishes in the plane. -/
theorem block_gram (ax ay bx b_y cx cy dx dy t k : F) (ht : t ≠ 0) (hk0 : k ≠ 0)
    (hk2 : k ≠ 2)
    (E1 : (bx - ax) * (bx - ax) + (b_y - ay) * (b_y - ay) = t)
    (E2 : (cx - ax) * (cx - ax) + (cy - ay) * (cy - ay) = t)
    (E3 : (dx - ax) * (dx - ax) + (dy - ay) * (dy - ay) = k * t)
    (E4 : (cx - bx) * (cx - bx) + (cy - b_y) * (cy - b_y) = k * t)
    (E5 : (dx - bx) * (dx - bx) + (dy - b_y) * (dy - b_y) = t)
    (E6 : (dx - cx) * (dx - cx) + (dy - cy) * (dy - cy) = t) : False := by
  have huv : (bx - ax) * (cx - ax) + (b_y - ay) * (cy - ay) = (2 - k) * t / 2 := by
    linear_combination (E1 + E2 - E4) / 2
  have huw : (bx - ax) * (dx - ax) + (b_y - ay) * (dy - ay) = k * t / 2 := by
    linear_combination (E1 + E3 - E5) / 2
  have hvw : (cx - ax) * (dx - ax) + (cy - ay) * (dy - ay) = k * t / 2 := by
    linear_combination (E2 + E3 - E6) / 2
  have hdet :
      ((bx - ax) * (bx - ax) + (b_y - ay) * (b_y - ay))
          * (((cx - ax) * (cx - ax) + (cy - ay) * (cy - ay))
                * ((dx - ax) * (dx - ax) + (dy - ay) * (dy - ay))
              - ((cx - ax) * (dx - ax) + (cy - ay) * (dy - ay))
                * ((cx - ax) * (dx - ax) + (cy - ay) * (dy - ay)))
        - ((bx - ax) * (cx - ax) + (b_y - ay) * (cy - ay))
          * (((bx - ax) * (cx - ax) + (b_y - ay) * (cy - ay))
                * ((dx - ax) * (dx - ax) + (dy - ay) * (dy - ay))
              - ((cx - ax) * (dx - ax) + (cy - ay) * (dy - ay))
                * ((bx - ax) * (dx - ax) + (b_y - ay) * (dy - ay)))
        + ((bx - ax) * (dx - ax) + (b_y - ay) * (dy - ay))
          * (((bx - ax) * (cx - ax) + (b_y - ay) * (cy - ay))
                * ((cx - ax) * (dx - ax) + (cy - ay) * (dy - ay))
              - ((cx - ax) * (cx - ax) + (cy - ay) * (cy - ay))
                * ((bx - ax) * (dx - ax) + (b_y - ay) * (dy - ay))) = 0 := by
    ring
  rw [E1, E2, E3, huv, huw, hvw] at hdet
  have h6 : t * t * t * (k * k * (2 - k)) = 0 := by linear_combination 2 * hdet
  have hne : t * t * t * (k * k * (2 - k)) ≠ 0 :=
    mul_ne_zero (mul_ne_zero (mul_ne_zero ht ht) ht)
      (mul_ne_zero (mul_ne_zero hk0 hk0) (sub_ne_zero.mpr (Ne.symm hk2)))
  exact hne h6

theorem block_lengths_impossible {sqrt : F → F} (hs : IsSqrt sqrt) (s : F) (hpos : 0 < s)
    (A B C D : Vec2 F)
    (h : Vec2.Length sqrt (B - A) = s ∧ Vec2.Length sqrt (C - A) = s ∧
      Vec2.Length sqrt (D - A) = s * 1.4142 ∧ Vec2.Length sqrt (C - B) = s * 1.4142 ∧
      Vec2.Length sqrt (D - B) = s ∧ Vec2.Length sqrt (D - C) = s) : False := by
  obtain ⟨h1, h2, h3, h4, h5, h6⟩ := h
  have sq : ∀ (v : Vec2 F) (ρ : F), Vec2.Length sqrt v = ρ → v.x * v.x + v.y * v.y = ρ * ρ := by
    intro v ρ hv
    rw [← Vec2.Length_mul_self hs v, hv]
  have e1 := sq _ _ h1
  have e2 := sq _ _ h2
  have e3 := sq _ _ h3
  have e4 := sq _ _ h4
  have e5 := sq _ _ h5
  have e6 := sq _ _ h6
  simp only [Vec2.sub_x, Vec2.sub_y] at e1 e2 e3 e4 e5 e6
  refine block_gram A.x A.y B.x B.y C.x C.y D.x D.y (s * s) (1.4142 * 1.4142)
    (mul_ne_zero hpos.ne' hpos.ne') (by norm_num) (by norm_num) e1 e2 ?_ ?_ e5 e6
  · rw [e3]; ring
  · rw [e4]; ring

/-- A link that is not at its rest length, with unpinned endpoints at
distinct positions and `DIST_STIFF ≠ 0`, moves both endpoints. -/
theorem SolveStick_moves {sqrt : F → F} (hs : IsSqrt sqrt) (cfg : Params F) (rest : F)
    (p q : Particle F) (hp : p.pinned = false) (hq : q.pinned = false)
    (hd : p.position ≠ q.position) (hk : cfg.DIST_STIFF ≠ 0)
    (hne : Vec2.Length sqrt (q.position - p.position) ≠ rest) :
    (SolveStick sqrt cfg rest p q).1.position ≠ p.position ∧
    (SolveStick sqrt cfg rest p q).2.position ≠ q.position := by
  have hL : Vec2.Length sqrt (q.position - p.position) ≠ 0 := by
    intro h0
    obtain ⟨hx, hy⟩ := (Vec2.Length_eq_zero hs _).mp h0
    simp only [Vec2.sub_x, Vec2.sub_y, sub_eq_zero] at hx hy
    exact hd (Vec2.ext_xy hx.symm hy.symm)
  have hzero : ∀ a : F, a * (0.5 : F) * (Vec2.Length sqrt (q.position - p.position) - rest)
      / Vec2.Length sqrt (q.position - p.position) * cfg.DIST_STIFF = 0 → a = 0 := by
    intro a h
    by_contra ha
    exact mul_ne_zero (div_ne_zero (mul_ne_zero (mul_ne_zero ha (by norm_num))
      (sub_ne_zero.mpr hne)) hL) hk h
  have hdelta : ¬ (q.position.x - p.position.x = 0 ∧ q.position.y - p.position.y = 0) :=
    fun h => hL ((Vec2.Length_eq_zero hs _).mpr h)
  simp only [SolveStick, if_neg hL, hp, hq, Bool.false_eq_true, if_false]
  constructor
  · intro h
    apply hdelta
    have hx := congrArg Vec2.x h
    have hy := congrArg Vec2.y h
    simp only [Vec2.add_x, Vec2.add_y, Vec2.sub_x, Vec2.sub_y, Vec2.smul_x, Vec2.smul_y,
      Vec2.sdiv_x, Vec2.sdiv_y, add_right_eq_self] at hx hy
    exact ⟨hzero _ hx, hzero _ hy⟩
  · intro h
    apply hdelta
    have hx := congrArg Vec2.x h
    have hy := congrArg Vec2.y h
    simp only [Vec2.sub_x, Vec2.sub_y, Vec2.smul_x, Vec2.smul_y, Vec2.sdiv_x, Vec2.sdiv_y,
      sub_eq_self] at hx hy
    exact ⟨hzero _ hx, hzero _ hy⟩

/-- The six links of the block at grid place `(0, 0)` belong to every body
with at least two columns and two rows. -/
theorem new_block_sticks (rx ry : Nat → Nat) (startX startY : F) (c r : Int) (s : F)
    (hc : 2 ≤ c) (hr : 2 ≤ r) :
    (⟨0, 1, s⟩ : Stick F) ∈ (SoftBody.new rx ry startX startY c r s).sticks ∧
    (⟨0, c.toNat, s⟩ : Stick F) ∈ (SoftBody.new rx ry startX startY c r s).sticks ∧
    (⟨0, c.toNat + 1, s * 1.4142⟩ : Stick F)
      ∈ (SoftBody.new rx ry startX startY c r s).sticks ∧
    (⟨1, c.toNat, s * 1.4142⟩ : Stick F) ∈ (SoftBody.new rx ry startX startY c r s).sticks ∧
    (⟨1, c.toNat + 1, s⟩ : Stick F) ∈ (SoftBody.new rx ry startX startY c r s).sticks ∧
    (⟨c.toNat, c.toNat + 1, s⟩ : Stick F)
      ∈ (SoftBody.new rx ry startX startY c r s).sticks := by
  have h2c : 2 ≤ c.toNat := by omega
  have h2r : 2 ≤ r.toNat := by omega
  refine ⟨?_, ?_, ?_, ?_, ?_, ?_⟩ <;> rw [new_sticks_mem]
  · exact ⟨0, 0, by omega, by omega, Or.inl ⟨by omega, by simp⟩⟩
  · exact ⟨0, 0, by omega, by omega, Or.inr (Or.inl ⟨by omega, by simp⟩)⟩
  · exact ⟨0, 0, by omega, by omega, Or.inr (Or.inr ⟨by omega, by omega, Or.inl (by simp)⟩)⟩
  · exact ⟨0, 0, by omega, by omega, Or.inr (Or.inr ⟨by omega, by omega, Or.inr (by simp)⟩)⟩
  · exact ⟨1, 0, by omega, by omega, Or.inr (Or.inl ⟨by omega, by simp [Nat.add_comm]⟩)⟩
  · exact ⟨0, 1, by omega, by omega, Or.inl ⟨by omega, by simp⟩⟩

/-- No placement of the particles of a body with at least two columns and
two rows satisfies all of its links. -/
theorem new_sticks_unsatisfiable {sqrt : F → F} (hs : IsSqrt sqrt) (rx ry : Nat → Nat)
    (startX startY : F) (c r : Int) (s : F) (hpos : 0 < s) (hc : 2 ≤ c) (hr : 2 ≤ r)
    (ps : List (Particle F)) :
    ¬ SticksSatisfied sqrt { SoftBody.new rx ry startX startY c r s with particles := ps } := by
  intro h
  obtain ⟨m1, m2, m3, m4, m5, m6⟩ := new_block_sticks rx ry startX startY c r s hc hr
  obtain ⟨A, B, hA, hB, l1⟩ := h _ m1
  obtain ⟨A2, C, hA2, hC, l2⟩ := h _ m2
  obtain ⟨A3, D, hA3, hD, l3⟩ := h _ m3
  obtain ⟨B4, C4, hB4, hC4, l4⟩ := h _ m4
  obtain ⟨B5, D5, hB5, hD5, l5⟩ := h _ m5
  obtain ⟨C6, D6, hC6, hD6, l6⟩ := h _ m6
  simp only at hA hB hA2 hC hA3 hD hB4 hC4 hB5 hD5 hC6 hD6 l1 l2 l3 l4 l5 l6
  have eA2 : A2 = A := Option.some.inj (hA2.symm.trans hA)
  have eA3 : A3 = A := Option.some.inj (hA3.symm.trans hA)
  have eB4 : B4 = B := Option.some.inj (hB4.symm.trans hB)
  have eB5 : B5 = B := Option.some.inj (hB5.symm.trans hB)
  have eC4 : C4 = C := Option.some.inj (hC4.symm.trans hC)
  have eC6 : C6 = C := Option.some.inj (hC6.symm.trans hC)
  have eD5 : D5 = D := Option.some.inj (hD5.symm.trans hD)
  have eD6 : D6 = D := Option.some.inj (hD6.symm.trans hD)
  subst eA2 eA3 eB4 eB5 eC4 eC6 eD5 eD6
  exact block_lengths_impossible hs s hpos _ _ _ _ ⟨l1, l2, l3, l4, l5, l6⟩

end BlockLemmas

/-! ## The claims -/

section Claims

variable {F : Type} [LinearOrderedField F]

/-- C1 (evaluation at the failing input): `pinnedProbe` is pinned, yet
`SolveFloor` moves its position and its oldPosition, and so does one whole
physics frame on the body made of it. `SolveFloor`, `SolveCeiling`,
`SolveWalls` and `SolveCubeCollision` do not test `pinned`. -/
theorem pinned_moved_by_SolveFloor :
    pinnedProbe.pinned = true ∧
    SolveFloor defaultParams pinnedProbe 950 = ⟨⟨100, 950⟩, ⟨100, 955⟩, ⟨0, 0⟩, true⟩ ∧
    physicsStep (fun x => x) defaultParams ⟨0, 2000⟩ (1 / 60) [pinnedBody]
      = some [⟨[⟨⟨100, 950⟩, ⟨100, 955⟩, ⟨0, 0⟩, true⟩], [], [], 1, 1, 30⟩] := by
  refine ⟨rfl, ?_, ?_⟩
  · norm_num [SolveFloor, defaultParams, pinnedProbe]
  · simp [physicsStep, stepBody, iterateOpt, relaxPass, collideAll, collideAllCubes,
      solveBounds, SolveFloor, SolveCeiling, SolveWalls, defaultParams, pinnedProbe,
      pinnedBody, ApplyForce, Integrate, List.range_succ]
    norm_num

/-- C3: a particle below the floor (`position.y > floorY`) is put on the floor
with its implicit vertical velocity multiplied by `-BOUNCE` and its x
coordinates untouched; a particle with `position.y ≤ floorY` is not changed. -/
theorem SolveFloor_spec (cfg : Params F) (p : Particle F) (floorY : F) :
    (p.position.y > floorY →
      (SolveFloor cfg p floorY).position.y = floorY ∧
      (SolveFloor cfg p floorY).position.y - (SolveFloor cfg p floorY).oldPosition.y
        = -cfg.BOUNCE * (p.position.y - p.oldPosition.y) ∧
      (SolveFloor cfg p floorY).position.x = p.position.x ∧
      (SolveFloor cfg p floorY).oldPosition.x = p.oldPosition.x) ∧
    (p.position.y ≤ floorY → SolveFloor cfg p floorY = p) := by
  constructor
  · intro h
    simp only [SolveFloor, if_pos h]
    exact ⟨trivial, by ring, trivial, trivial⟩
  · intro h
    simp only [SolveFloor, if_neg (not_lt.mpr h)]

/-- C4 (evaluation at the failing inputs): `cornerProbe` violates the ceiling
and the left wall with implicit velocity `(-5, -5)`, `rightProbe` violates
the right wall with implicit velocity `(10, 0)`. After the call the offending
coordinate is on the boundary but the implicit velocity on that axis is
`BOUNCE` times the old one, not `-BOUNCE` times it. -/
theorem ceiling_walls_keep_direction :
    (SolveCeiling defaultParams cornerProbe 50).position.y = 50 ∧
    (SolveCeiling defaultParams cornerProbe 50).position.y
      - (SolveCeiling defaultParams cornerProbe 50).oldPosition.y = -(5 / 2) ∧
    -defaultParams.BOUNCE * (cornerProbe.position.y - cornerProbe.oldPosition.y) = 5 / 2 ∧
    (SolveWalls defaultParams cornerProbe 50 1750).position.x = 50 ∧
    (SolveWalls defaultParams cornerProbe 50 1750).position.x
      - (SolveWalls defaultParams cornerProbe 50 1750).oldPosition.x = -(5 / 2) ∧
    -defaultParams.BOUNCE * (cornerProbe.position.x - cornerProbe.oldPosition.x) = 5 / 2 ∧
    (SolveWalls defaultParams rightProbe 50 1750).position.x = 1750 ∧
    (SolveWalls defaultParams rightProbe 50 1750).position.x
      - (SolveWalls defaultParams rightProbe 50 1750).oldPosition.x = 5 ∧
    -defaultParams.BOUNCE * (rightProbe.position.x - rightProbe.oldPosition.x) = -5 := by
  norm_num [SolveCeiling, SolveWalls, defaultParams, cornerProbe, rightProbe]

/-- C9: for an unpinned particle `Integrate` stores the old position in
oldPosition, clears the acceleration and moves the position by
`0.95 * c + acceleration * dt^2`, where `c` is the implicit velocity `v`
when `|v| ≤ MAX_MOVE` and `v * MAX_MOVE / |v|` otherwise; a pinned particle
is returned as it is. -/
theorem Integrate_spec (sqrt : F → F) (cfg : Params F) (p : Particle F) (dt : F) :
    (p.pinned = false →
      (Integrate sqrt cfg p dt).oldPosition = p.position ∧
      (Integrate sqrt cfg p dt).acceleration = ⟨0, 0⟩ ∧
      (Integrate sqrt cfg p dt).position =
        p.position
          + (if Vec2.Length sqrt (p.position - p.oldPosition) ≤ cfg.MAX_MOVE
              then p.position - p.oldPosition
              else (p.position - p.oldPosition) * cfg.MAX_MOVE
                    / Vec2.Length sqrt (p.position - p.oldPosition)) * (0.95 : F)
          + p.acceleration * dt ^ 2) ∧
    (p.pinned = true → Integrate sqrt cfg p dt = p) := by
  constructor
  · intro hp
    simp only [Integrate, hp, Bool.false_eq_true, if_false]
    refine ⟨trivial, trivial, ?_⟩
    by_cases h : Vec2.Length sqrt (p.position - p.oldPosition) ≤ cfg.MAX_MOVE
    · rw [if_neg (not_lt.mpr h), if_pos h]
      apply Vec2.ext_xy <;> simp <;> ring
    · rw [if_pos (not_le.mp h), if_neg h]
      by_cases h0 : Vec2.Length sqrt (p.position - p.oldPosition) = 0
      · apply Vec2.ext_xy <;> simp [Vec2.Normalized, h0] <;> ring
      · apply Vec2.ext_xy <;> simp [Vec2.Normalized, h0] <;> ring
  · intro hp
    simp [Integrate, hp]

/-- C2 (counterexample): `fastProbe` is unpinned, has implicit speed `10 >
MAX_MOVE = 6` and no acceleration, and after `Integrate` its position has
moved by a vector whose length is not `MAX_MOVE`. -/
theorem Integrate_step_ne_MAX_MOVE :
    (fastProbe : Particle ℝ).pinned = false ∧
    Vec2.Length Real.sqrt ((fastProbe : Particle ℝ).position - fastProbe.oldPosition)
      > (defaultParams : Params ℝ).MAX_MOVE ∧
    0 < (defaultParams : Params ℝ).MAX_MOVE ∧
    (fastProbe : Particle ℝ).acceleration = ⟨0, 0⟩ ∧
    Vec2.Length Real.sqrt
        ((Integrate Real.sqrt defaultParams fastProbe (1 / 60)).position - fastProbe.position)
      ≠ (defaultParams : Params ℝ).MAX_MOVE := by
  have hv : Vec2.Length Real.sqrt ((fastProbe : Particle ℝ).position - fastProbe.oldPosition)
      > (defaultParams : Params ℝ).MAX_MOVE := by
    rw [fastProbe_speed]; norm_num [defaultParams]
  have hM : 0 < (defaultParams : Params ℝ).MAX_MOVE := by norm_num [defaultParams]
  refine ⟨rfl, hv, hM, rfl, ?_⟩
  rw [clamped_step_length real_isSqrt defaultParams fastProbe (1 / 60) rfl hv hM rfl]
  norm_num [defaultParams]

/-- C2 (amended): for an unpinned particle whose implicit speed exceeds
`MAX_MOVE > 0` and whose acceleration is zero, the position change made by
`Integrate` has length exactly `0.95 * MAX_MOVE`, which is less than
`MAX_MOVE`; the new implicit velocity is that same vector. -/
theorem Integrate_clamp (sqrt : F → F) (hs : IsSqrt sqrt) (cfg : Params F)
    (p : Particle F) (dt : F) (hp : p.pinned = false)
    (hv : Vec2.Length sqrt (p.position - p.oldPosition) > cfg.MAX_MOVE)
    (hM : 0 < cfg.MAX_MOVE) (ha : p.acceleration = ⟨0, 0⟩) :
    Vec2.Length sqrt ((Integrate sqrt cfg p dt).position - p.position)
      = 0.95 * cfg.MAX_MOVE ∧
    Vec2.Length sqrt ((Integrate sqrt cfg p dt).position - p.position) < cfg.MAX_MOVE ∧
    (Integrate sqrt cfg p dt).oldPosition = p.position := by
  have h := clamped_step_length hs cfg p dt hp hv hM ha
  refine ⟨h, ?_, ?_⟩
  · rw [h]
    have : (0.95 : F) < 1 := by norm_num
    nlinarith
  · simp [Integrate, hp]

/-- C2 (witness): `Integrate_clamp` on `fastProbe` over the reals. -/
theorem Integrate_clamp_witness :
    Vec2.Length Real.sqrt
        ((Integrate Real.sqrt defaultParams fastProbe (1 / 60)).position - fastProbe.position)
      = 0.95 * (defaultParams : Params ℝ).MAX_MOVE ∧
    Vec2.Length Real.sqrt
        ((Integrate Real.sqrt defaultParams fastProbe (1 / 60)).position - fastProbe.position)
      < (defaultParams : Params ℝ).MAX_MOVE ∧
    (Integrate Real.sqrt defaultParams fastProbe (1 / 60)).oldPosition
      = (fastProbe : Particle ℝ).position :=
  Integrate_clamp Real.sqrt real_isSqrt defaultParams fastProbe (1 / 60) rfl
    (by rw [fastProbe_speed]; norm_num [defaultParams]) (by norm_num [defaultParams]) rfl

/-- C5: two unpinned particles at distance `d` with `0 < d < 2 * radius` are
at distance exactly `2 * radius` after `SolveParticleCollision`. -/
theorem SolveParticleCollision_separates (sqrt : F → F) (hs : IsSqrt sqrt)
    (a b : Particle F) (radius : F) (ha : a.pinned = false) (hb : b.pinned = false)
    (hr : 0 < radius)
    (h0 : 0 < Vec2.Length sqrt (b.position - a.position))
    (h1 : Vec2.Length sqrt (b.position - a.position) < 2 * radius) :
    Vec2.Length sqrt
        ((SolveParticleCollision sqrt a b radius).2.position
          - (SolveParticleCollision sqrt a b radius).1.position)
      = 2 * radius := by
  rw [SolveParticleCollision_delta sqrt a b radius ha hb h0.ne' (by linarith),
    Vec2.Length_smul hs _ (by positivity)]
  field_simp

/-- C5 (witness): `originProbe` and `farProbe` are `5` apart, the radius is `5`. -/
theorem SolveParticleCollision_separates_witness :
    Vec2.Length Real.sqrt
        ((SolveParticleCollision Real.sqrt originProbe farProbe 5).2.position
          - (SolveParticleCollision Real.sqrt originProbe farProbe 5).1.position)
      = 2 * 5 :=
  SolveParticleCollision_separates Real.sqrt real_isSqrt originProbe farProbe 5 rfl rfl
    (by norm_num) (by rw [farProbe_distance]; norm_num)
    (by rw [farProbe_distance]; norm_num)

/-- C6 (counterexample): a link of rest length `1` whose two unpinned
endpoints coincide has length error `-1`, and `SolveStick` leaves it there:
the error is non-zero, one application does not decrease its absolute value,
and it is still `-1` after any number of applications. -/
theorem SolveStick_stuck_when_coincident :
    (originProbe : Particle ℝ).pinned = false ∧
    0 < (defaultParams : Params ℝ).DIST_STIFF ∧ (defaultParams : Params ℝ).DIST_STIFF ≤ 1 ∧
    stickError Real.sqrt 1 (originProbe, originProbe) ≠ 0 ∧
    ¬ (|stickError Real.sqrt 1 (SolveStick Real.sqrt defaultParams 1 originProbe originProbe)|
        < |stickError Real.sqrt 1 (originProbe, originProbe)|) ∧
    ∀ n, stickError Real.sqrt 1
      (stickIter Real.sqrt defaultParams 1 n (originProbe, originProbe)) = -1 := by
  have hfix : SolveStick Real.sqrt (defaultParams : Params ℝ) 1 originProbe originProbe
      = (originProbe, originProbe) := by
    simp [SolveStick, Vec2.Length, originProbe]
  have herr : stickError Real.sqrt 1 ((originProbe : Particle ℝ), originProbe) = -1 := by
    simp [stickError, Vec2.Length, originProbe]
  have hiter : ∀ n, stickIter Real.sqrt (defaultParams : Params ℝ) 1 n
      (originProbe, originProbe) = (originProbe, originProbe) := by
    intro n
    induction n with
    | zero => rfl
    | succ n ih =>
      have hsucc : stickIter Real.sqrt (defaultParams : Params ℝ) 1 (n + 1)
          (originProbe, originProbe)
          = SolveStick Real.sqrt defaultParams 1
              (stickIter Real.sqrt defaultParams 1 n (originProbe, originProbe)).1
              (stickIter Real.sqrt defaultParams 1 n (originProbe, originProbe)).2 := by
        simp only [stickIter, Function.iterate_succ_apply']
      rw [hsucc, ih]
      exact hfix
  refine ⟨rfl, by norm_num [defaultParams], by norm_num [defaultParams], ?_, ?_, ?_⟩
  · rw [herr]; norm_num
  · rw [hfix]; exact lt_irrefl _
  · intro n; rw [hiter n]; exact herr

/-- C6 (amended): for a link with rest length `> 0`, `DIST_STIFF` in `(0, 1]`
and two unpinned endpoints at distinct positions, one application of
`SolveStick` multiplies the signed length error by `1 - DIST_STIFF`; every
further application does not increase the absolute error and strictly
decreases it while it is non-zero; and the absolute error tends to zero
under repeated application. -/
theorem SolveStick_converges [Archimedean F] (sqrt : F → F) (hs : IsSqrt sqrt)
    (cfg : Params F) (rest : F) (p1 p2 : Particle F)
    (h1 : p1.pinned = false) (h2 : p2.pinned = false) (hr : 0 < rest)
    (hk0 : 0 < cfg.DIST_STIFF) (hk1 : cfg.DIST_STIFF ≤ 1)
    (hd : p1.position ≠ p2.position) :
    stickError sqrt rest (SolveStick sqrt cfg rest p1 p2)
      = (1 - cfg.DIST_STIFF) * stickError sqrt rest (p1, p2) ∧
    (∀ n, |stickError sqrt rest (stickIter sqrt cfg rest (n + 1) (p1, p2))|
        ≤ |stickError sqrt rest (stickIter sqrt cfg rest n (p1, p2))|) ∧
    (∀ n, stickError sqrt rest (stickIter sqrt cfg rest n (p1, p2)) ≠ 0 →
        |stickError sqrt rest (stickIter sqrt cfg rest (n + 1) (p1, p2))|
          < |stickError sqrt rest (stickIter sqrt cfg rest n (p1, p2))|) ∧
    (∀ ε : F, 0 < ε → ∃ N : Nat, ∀ n, N ≤ n →
        |stickError sqrt rest (stickIter sqrt cfg rest n (p1, p2))| < ε) := by
  have hpos : 0 < Vec2.Length sqrt (p2.position - p1.position) := by
    rcases (Vec2.Length_nonneg hs (p2.position - p1.position)).lt_or_eq with h | h
    · exact h
    · exfalso
      obtain ⟨hx, hy⟩ := (Vec2.Length_eq_zero hs _).mp h.symm
      simp only [Vec2.sub_x, Vec2.sub_y, sub_eq_zero] at hx hy
      exact hd (Vec2.ext_xy hx.symm hy.symm)
  have hq0 : 0 ≤ 1 - cfg.DIST_STIFF := by linarith
  have hq1 : 1 - cfg.DIST_STIFF < 1 := by linarith
  have hclosed := fun n => (stickIter_error hs cfg rest (p1, p2) h1 h2 hr hk0 hk1 hpos n).2.2.2
  have hsucc : ∀ n, |stickError sqrt rest (stickIter sqrt cfg rest (n + 1) (p1, p2))|
      = (1 - cfg.DIST_STIFF) * |stickError sqrt rest (stickIter sqrt cfg rest n (p1, p2))| := by
    intro n
    rw [hclosed (n + 1), hclosed n, pow_succ, ← abs_of_nonneg hq0, ← abs_mul,
      abs_of_nonneg hq0]
    congr 1
    ring
  refine ⟨(SolveStick_step hs cfg rest (p1, p2) h1 h2 hr hk0 hk1 hpos).2.2.2, ?_, ?_, ?_⟩
  · intro n
    rw [hsucc n]
    nlinarith [abs_nonneg (stickError sqrt rest (stickIter sqrt cfg rest n (p1, p2)))]
  · intro n hn
    rw [hsucc n]
    nlinarith [abs_pos.mpr hn]
  · intro ε hε
    by_cases he : stickError sqrt rest (p1, p2) = 0
    · refine ⟨0, fun n _ => ?_⟩
      rw [hclosed n, he, mul_zero, abs_zero]
      exact hε
    · have habs : 0 < |stickError sqrt rest (p1, p2)| := abs_pos.mpr he
      obtain ⟨N, hN⟩ := exists_pow_lt_of_lt_one (div_pos hε habs) hq1
      refine ⟨N, fun n hn => ?_⟩
      rw [hclosed n, abs_mul, abs_of_nonneg (pow_nonneg hq0 n)]
      have hle : (1 - cfg.DIST_STIFF) ^ n ≤ (1 - cfg.DIST_STIFF) ^ N :=
        pow_le_pow_of_le_one hq0 hq1.le hn
      calc (1 - cfg.DIST_STIFF) ^ n * |stickError sqrt rest (p1, p2)|
          ≤ (1 - cfg.DIST_STIFF) ^ N * |stickError sqrt rest (p1, p2)| :=
            mul_le_mul_of_nonneg_right hle habs.le
        _ < ε / |stickError sqrt rest (p1, p2)| * |stickError sqrt rest (p1, p2)| :=
            mul_lt_mul_of_pos_right hN habs
        _ = ε := div_mul_cancel₀ ε habs.ne'

/-- C7 (evaluation at the failing input): the box of `cubeRight` is
`[310,340] x [300,330]`, the box of `cubeLeft` is `[282,312] x [300,330]`;
they overlap by `2` on x and by `30` on y, so x is the chosen axis and each
body is moved by `1`. The first argument is always moved in the negative
direction: `cubeRight` goes to `[309,339]`, `cubeLeft` to `[283,313]`, and
the overlap on x has grown to `4`. -/
theorem SolveCubeCollision_pushes_together :
    (cubeRight : SoftBody ℚ).particles.map (fun p => p.position)
      = [⟨310, 300⟩, ⟨340, 300⟩, ⟨310, 330⟩, ⟨340, 330⟩] ∧
    (cubeLeft : SoftBody ℚ).particles.map (fun p => p.position)
      = [⟨282, 300⟩, ⟨312, 300⟩, ⟨282, 330⟩, ⟨312, 330⟩] ∧
    (SolveCubeCollision (cubeRight : SoftBody ℚ) cubeLeft).map
        (fun r => (r.1.particles.map (fun p => p.position),
                   r.2.particles.map (fun p => p.position)))
      = some ([⟨309, 300⟩, ⟨339, 300⟩, ⟨309, 330⟩, ⟨339, 330⟩],
              [⟨283, 300⟩, ⟨313, 300⟩, ⟨283, 330⟩, ⟨313, 330⟩]) := by
  refine ⟨?_, ?_, ?_⟩
  · simp [cubeRight, SoftBody.new, gridPos, Particle.new, List.range_succ, List.flatMap]
    norm_num
  · simp [cubeLeft, SoftBody.new, gridPos, Particle.new, List.range_succ, List.flatMap]
    norm_num
  · simp [SolveCubeCollision, SoftBody.particleAt, SoftBody.mapPositions, cubeRight, cubeLeft,
      SoftBody.new, gridPos, Particle.new, List.range_succ, List.flatMap]
    norm_num
    exact ⟨_, _, ⟨rfl, rfl⟩, by simp, by simp⟩

/-- C10 (evaluation at the failing input): in `grabWorld` a press at
`(310,300)` grabs particle `0` of the body at address `0`. `KEY_D` with the
mouse at the same place removes that body and leaves `grabbedParticle` as it
was: it is not empty and designates no particle of a live body. The
mouse-held handler of the next frame then writes through it. -/
theorem remove_leaves_dangling_grab :
    (handlePress ⟨310, 300⟩ (grabWorld : World ℝ)).grabbedParticle = some (0, 0) ∧
    Designates (handlePress ⟨310, 300⟩ (grabWorld : World ℝ)).cubes (0, 0) ∧
    (handleKeyD Real.sqrt ⟨310, 300⟩ (handlePress ⟨310, 300⟩ (grabWorld : World ℝ))).cubes
      = [] ∧
    (handleKeyD Real.sqrt ⟨310, 300⟩
        (handlePress ⟨310, 300⟩ (grabWorld : World ℝ))).grabbedParticle = some (0, 0) ∧
    ¬ Designates
        (handleKeyD Real.sqrt ⟨310, 300⟩ (handlePress ⟨310, 300⟩ (grabWorld : World ℝ))).cubes
        (0, 0) ∧
    handleHeld ⟨310, 300⟩ ⟨0, 0⟩
        (handleKeyD Real.sqrt ⟨310, 300⟩ (handlePress ⟨310, 300⟩ (grabWorld : World ℝ)))
      = none := by
  have hpress : handlePress ⟨310, 300⟩ (grabWorld : World ℝ)
      = ⟨[(0, cubeRight)], some (0, 0)⟩ := by
    simp [handlePress, grabWorld, grabStep, cubeRight, SoftBody.new, gridPos, Particle.new,
      List.range_succ, List.flatMap, List.enum, List.enumFrom, FLT_MAX]
    norm_num
  have hkey : handleKeyD Real.sqrt ⟨310, 300⟩ (⟨[(0, cubeRight)], some (0, 0)⟩ : World ℝ)
      = ⟨[], some (0, 0)⟩ := by
    simp [handleKeyD, eraseNear, SoftBody.GetCenter, cubeRight, SoftBody.new, gridPos,
      Particle.new, List.range_succ, List.flatMap, Vec2.Length]
    rw [Real.sqrt_lt' (by norm_num)]
    norm_num
  rw [hpress, hkey]
  refine ⟨rfl, ?_, rfl, rfl, ?_, ?_⟩
  · refine ⟨(0, cubeRight), by simp, rfl, ?_⟩
    simp [cubeRight, SoftBody.new, List.range_succ, List.flatMap]
  · simp [Designates]
  · simp [handleHeld]

/-- C3 (witness): `pinnedProbe` is below the floor `950`, `cornerProbe` is above it. -/
theorem SolveFloor_spec_witness :
    (SolveFloor defaultParams pinnedProbe 950).position.y = 950 ∧
    (SolveFloor defaultParams pinnedProbe 950).position.y
        - (SolveFloor defaultParams pinnedProbe 950).oldPosition.y
      = -defaultParams.BOUNCE * (pinnedProbe.position.y - pinnedProbe.oldPosition.y) ∧
    (SolveFloor defaultParams pinnedProbe 950).position.x = pinnedProbe.position.x ∧
    (SolveFloor defaultParams pinnedProbe 950).oldPosition.x = pinnedProbe.oldPosition.x ∧
    SolveFloor defaultParams cornerProbe 950 = cornerProbe :=
  ⟨((SolveFloor_spec defaultParams pinnedProbe 950).1 (by norm_num [pinnedProbe])).1,
   ((SolveFloor_spec defaultParams pinnedProbe 950).1 (by norm_num [pinnedProbe])).2.1,
   ((SolveFloor_spec defaultParams pinnedProbe 950).1 (by norm_num [pinnedProbe])).2.2.1,
   ((SolveFloor_spec defaultParams pinnedProbe 950).1 (by norm_num [pinnedProbe])).2.2.2,
   (SolveFloor_spec defaultParams cornerProbe 950).2 (by norm_num [cornerProbe])⟩

/-- C9 (witness): `fastProbe` is unpinned, `pinnedProbe` is pinned. -/
theorem Integrate_spec_witness :
    (Integrate Real.sqrt defaultParams fastProbe (1 / 60)).oldPosition
      = (fastProbe : Particle ℝ).position ∧
    Integrate (fun x => x) defaultParams pinnedProbe (1 / 60) = pinnedProbe :=
  ⟨((Integrate_spec Real.sqrt defaultParams fastProbe (1 / 60)).1 rfl).1,
   (Integrate_spec (fun x => x) defaultParams pinnedProbe (1 / 60)).2 rfl⟩

/-- C6 (witness): a link of rest length `1` between `originProbe` and `farProbe`. -/
theorem SolveStick_converges_witness :
    stickError Real.sqrt 1 (SolveStick Real.sqrt defaultParams 1 originProbe farProbe)
      = (1 - (defaultParams : Params ℝ).DIST_STIFF)
          * stickError Real.sqrt 1 (originProbe, farProbe) ∧
    (∀ ε : ℝ, 0 < ε → ∃ N : Nat, ∀ n, N ≤ n →
      |stickError Real.sqrt 1
          (stickIter Real.sqrt defaultParams 1 n (originProbe, farProbe))| < ε) :=
  ⟨(SolveStick_converges Real.sqrt real_isSqrt defaultParams 1 originProbe farProbe rfl rfl
      (by norm_num) (by norm_num [defaultParams]) (by norm_num [defaultParams])
      (by simp [originProbe, farProbe])).1,
   (SolveStick_converges Real.sqrt real_isSqrt defaultParams 1 originProbe farProbe rfl rfl
      (by norm_num) (by norm_num [defaultParams]) (by norm_num [defaultParams])
      (by simp [originProbe, farProbe])).2.2.2⟩

/-- C8 (counterexample): the world made of `movingBody` alone satisfies every
constraint listed in the claim (no link, no cell, the point is inside the
bounds, no pair, one body), gravity is zero, and one physics frame moves the
point from `(100,100)` to `(100.95,100)` and its oldPosition from `(99,100)`
to `(100,100)`. -/
theorem moving_body_not_fixed :
    ConstraintsSatisfied Real.sqrt defaultParams [(movingBody : SoftBody ℝ)] ∧
    physicsStep Real.sqrt defaultParams ⟨0, 0⟩ (1 / 60) [(movingBody : SoftBody ℝ)]
      = some [⟨[⟨⟨100.95, 100⟩, ⟨100, 100⟩, ⟨0, 0⟩, false⟩], [], [], 1, 1, 30⟩] ∧
    physicsStep Real.sqrt defaultParams ⟨0, 0⟩ (1 / 60) [(movingBody : SoftBody ℝ)]
      ≠ some [movingBody] := by
  have hstep : physicsStep Real.sqrt defaultParams ⟨0, 0⟩ (1 / 60) [(movingBody : SoftBody ℝ)]
      = some [⟨[⟨⟨100.95, 100⟩, ⟨100, 100⟩, ⟨0, 0⟩, false⟩], [], [], 1, 1, 30⟩] := by
    simp [physicsStep, stepBody, iterateOpt, relaxPass, collideAll, collideAllCubes,
      solveBounds, SolveFloor, SolveCeiling, SolveWalls, defaultParams, movingBody,
      ApplyForce, Integrate, Vec2.Length, List.range_succ, Vec2.mk_add, Vec2.mk_sub,
      Vec2.mk_smul]
    norm_num
    apply Vec2.ext_xy <;> norm_num [Vec2.mk_add, Vec2.mk_smul]
  refine ⟨⟨?_, ?_⟩, hstep, ?_⟩
  · intro b hb
    simp only [List.mem_singleton] at hb
    subst hb
    refine ⟨?_, ?_, ?_, ?_⟩
    · intro s hs; simp [movingBody] at hs
    · intro q hq; simp [movingBody] at hq
    · intro p hp
      simp only [movingBody, List.mem_singleton] at hp
      subst hp
      norm_num
    · intro j k p q hjk hp hq
      have hk : k < 1 := by
        obtain ⟨h, -⟩ := List.getElem?_eq_some.mp hq
        simpa [movingBody] using h
      omega
  · intro i j a b hij ha hb
    have hj : j < 1 := by
      obtain ⟨h, -⟩ := List.getElem?_eq_some.mp hb
      simpa using h
    omega
  · rw [hstep]
    simp [movingBody]

/-- C8 (amended): when gravity is zero, every constraint is satisfied exactly
and, in addition, every unpinned particle is at rest (oldPosition equal to
position, no pending acceleration), one full physics frame returns the world
unchanged: every position and oldPosition is what it was. -/
theorem physicsStep_idempotent (sqrt : F → F) (cfg : Params F) (dt : F)
    (cubes : List (SoftBody F)) (hc : ConstraintsSatisfied sqrt cfg cubes)
    (hr : ∀ b ∈ cubes, AtRest b) :
    physicsStep sqrt cfg ⟨0, 0⟩ dt cubes = some cubes :=
  physicsStep_at_rest sqrt cfg dt cubes hc hr

/-- C8 (witness): two rods at rest, side by side, with the default parameters. -/
theorem physicsStep_idempotent_witness :
    physicsStep Real.sqrt defaultParams ⟨0, 0⟩ (1 / 60) [(rodLeft : SoftBody ℝ), rodRight]
      = some [rodLeft, rodRight] :=
  physicsStep_idempotent Real.sqrt defaultParams (1 / 60) [rodLeft, rodRight]
    rods_satisfied.1 rods_satisfied.2

/-- C11 (evaluation at the failing input): `emptyBody` has no particle, so the
divisor `particles.size()` of `GetCenter` is zero; `GetCenter` has no branch
and performs the division `(0,0) / 0`. -/
theorem GetCenter_divides_by_zero :
    (emptyBody : SoftBody ℚ).particles = [] ∧
    ((emptyBody : SoftBody ℚ).particles.length : ℚ) = 0 ∧
    (emptyBody : SoftBody ℚ).GetCenterChecked = none ∧
    (emptyBody : SoftBody ℚ).GetCenter = (⟨0, 0⟩ : Vec2 ℚ) / (0 : ℚ) := by
  have h : (emptyBody : SoftBody ℚ).particles = [] := by
    simp [emptyBody, SoftBody.new]
  refine ⟨h, ?_, ?_, ?_⟩
  · rw [h]; simp
  · simp [SoftBody.GetCenterChecked, Vec2.checkedDiv, h]
  · simp [SoftBody.GetCenter, h]

/-- C12 (counterexample): with the walls in the order `leftX = 10 > rightX = 0`
both tests of `SolveWalls` fire on every call, and a second call changes
`oldPosition.x` of `wallProbe` from `-1/4` to `-1/16`. -/
theorem SolveWalls_not_idempotent :
    SolveWalls defaultParams wallProbe 10 0 = ⟨⟨0, 0⟩, ⟨-(1 / 4), 0⟩, ⟨0, 0⟩, false⟩ ∧
    SolveWalls defaultParams (SolveWalls defaultParams wallProbe 10 0) 10 0
      = ⟨⟨0, 0⟩, ⟨-(1 / 16), 0⟩, ⟨0, 0⟩, false⟩ ∧
    SolveWalls defaultParams (SolveWalls defaultParams wallProbe 10 0) 10 0
      ≠ SolveWalls defaultParams wallProbe 10 0 := by
  have h1 : SolveWalls defaultParams wallProbe 10 0
      = ⟨⟨0, 0⟩, ⟨-(1 / 4), 0⟩, ⟨0, 0⟩, false⟩ := by
    norm_num [SolveWalls, defaultParams, wallProbe]
  have h2 : SolveWalls defaultParams (⟨⟨0, 0⟩, ⟨-(1 / 4), 0⟩, ⟨0, 0⟩, false⟩ : Particle ℚ) 10 0
      = ⟨⟨0, 0⟩, ⟨-(1 / 16), 0⟩, ⟨0, 0⟩, false⟩ := by
    norm_num [SolveWalls, defaultParams]
  rw [h1, h2]
  refine ⟨rfl, rfl, ?_⟩
  simp

/-- C12 (amended): `SolveFloor` and `SolveCeiling` are idempotent for every
particle and boundary, and `SolveWalls` is idempotent whenever
`leftX ≤ rightX`. -/
theorem boundary_idempotent (cfg : Params F) (p : Particle F)
    (floorY ceilingY leftX rightX : F) :
    SolveFloor cfg (SolveFloor cfg p floorY) floorY = SolveFloor cfg p floorY ∧
    SolveCeiling cfg (SolveCeiling cfg p ceilingY) ceilingY = SolveCeiling cfg p ceilingY ∧
    (leftX ≤ rightX →
      SolveWalls cfg (SolveWalls cfg p leftX rightX) leftX rightX
        = SolveWalls cfg p leftX rightX) := by
  refine ⟨?_, ?_, ?_⟩
  · by_cases h : p.position.y > floorY
    · simp [SolveFloor, h]
    · simp [SolveFloor, h]
  · by_cases h : p.position.y < ceilingY
    · simp [SolveCeiling, h]
    · simp [SolveCeiling, h]
  · intro hlr
    by_cases h1 : p.position.x < leftX
    · have h2 : ¬ rightX < leftX := not_lt.mpr hlr
      simp [SolveWalls, h1, h2]
    · by_cases h2 : rightX < p.position.x
      · have h3 : ¬ rightX < leftX := not_lt.mpr hlr
        simp [SolveWalls, h1, h2, h3]
      · simp [SolveWalls, h1, h2]

/-- C12 (witness): the walls of `main`, `50 ≤ 1750`, on `cornerProbe`. -/
theorem boundary_idempotent_witness :
    SolveWalls defaultParams (SolveWalls defaultParams cornerProbe 50 1750) 50 1750
      = SolveWalls defaultParams cornerProbe 50 1750 :=
  (boundary_idempotent defaultParams cornerProbe 950 50 50 1750).2.2 (by norm_num)

/-- C18: with both particles unpinned, `SolveStick` and
`SolveParticleCollision` keep the sum of the two positions; for every input
they leave oldPosition and acceleration of both particles as they were. -/
theorem pair_solvers_preserve_sum (sqrt : F → F) (cfg : Params F) (rest radius : F)
    (p1 p2 : Particle F) :
    (p1.pinned = false → p2.pinned = false →
      (SolveStick sqrt cfg rest p1 p2).1.position + (SolveStick sqrt cfg rest p1 p2).2.position
        = p1.position + p2.position ∧
      (SolveParticleCollision sqrt p1 p2 radius).1.position
          + (SolveParticleCollision sqrt p1 p2 radius).2.position
        = p1.position + p2.position) ∧
    ((SolveStick sqrt cfg rest p1 p2).1.oldPosition = p1.oldPosition ∧
      (SolveStick sqrt cfg rest p1 p2).2.oldPosition = p2.oldPosition ∧
      (SolveStick sqrt cfg rest p1 p2).1.acceleration = p1.acceleration ∧
      (SolveStick sqrt cfg rest p1 p2).2.acceleration = p2.acceleration) ∧
    ((SolveParticleCollision sqrt p1 p2 radius).1.oldPosition = p1.oldPosition ∧
      (SolveParticleCollision sqrt p1 p2 radius).2.oldPosition = p2.oldPosition ∧
      (SolveParticleCollision sqrt p1 p2 radius).1.acceleration = p1.acceleration ∧
      (SolveParticleCollision sqrt p1 p2 radius).2.acceleration = p2.acceleration) := by
  refine ⟨?_, SolveStick_frame sqrt cfg rest p1 p2,
    SolveParticleCollision_frame sqrt p1 p2 radius⟩
  intro h1 h2
  constructor
  · unfold SolveStick
    simp only [h1, h2, Bool.false_eq_true, if_false]
    split_ifs
    · rfl
    · apply Vec2.ext_xy <;> simp
  · unfold SolveParticleCollision
    simp only [h1, h2, Bool.false_eq_true, if_false]
    split_ifs
    · rfl
    · apply Vec2.ext_xy <;> simp
    · rfl

/-- C18 (witness): the link and the collision between `originProbe` and
`farProbe`, both unpinned. -/
theorem pair_solvers_preserve_sum_witness :
    (SolveStick Real.sqrt defaultParams 1 originProbe farProbe).1.position
        + (SolveStick Real.sqrt defaultParams 1 originProbe farProbe).2.position
      = (originProbe : Particle ℝ).position + farProbe.position ∧
    (SolveParticleCollision Real.sqrt originProbe farProbe 5).1.position
        + (SolveParticleCollision Real.sqrt originProbe farProbe 5).2.position
      = (originProbe : Particle ℝ).position + farProbe.position :=
  (pair_solvers_preserve_sum Real.sqrt defaultParams 1 5 originProbe farProbe).1 rfl rfl

/-- C15: on a cell whose four references are valid and pairwise distinct,
with `MAX_MOVE ≥ 0`, `SolveShapeMatching` moves each unpinned point `i` by
exactly `m_i`, the clamp of `d_i = (c + offset_i - position_i) * SHAPE_STIFF`
(`d_i` itself when `|d_i| ≤ MAX_MOVE`, `d_i * MAX_MOVE / |d_i|` otherwise, `c`
the mean of the four positions at entry); pinned points and all other
particles are returned as they were, and no position changes by more than
`MAX_MOVE`. -/
theorem SolveShapeMatching_moves (sqrt : F → F) (hs : IsSqrt sqrt) (cfg : Params F)
    (hM : 0 ≤ cfg.MAX_MOVE) (ps : List (Particle F)) (q : Quad F) (a : Fin 4 → Particle F)
    (hread : ∀ i, ps[q.point i]? = some (a i)) (hinj : Function.Injective q.point) :
    ∃ ps', SolveShapeMatching sqrt cfg ps q = some ps' ∧
      (∀ j, (∀ i, j ≠ q.point i) → ps'[j]? = ps[j]?) ∧
      ∀ i, ∃ n, ps'[q.point i]? = some n ∧
        ((a i).pinned = false →
          n.position = (a i).position + clampSpec sqrt cfg.MAX_MOVE
            ((centroid4 a + q.offset i - (a i).position) * cfg.SHAPE_STIFF)) ∧
        ((a i).pinned = true → n = a i) ∧
        n.oldPosition = (a i).oldPosition ∧ n.acceleration = (a i).acceleration ∧
        n.pinned = (a i).pinned ∧
        Vec2.Length sqrt (n.position - (a i).position) ≤ cfg.MAX_MOVE := by
  obtain ⟨hr, ho⟩ := quad_writes_read ps q a
    (fun i => movedBy (a i) (clampSpec sqrt cfg.MAX_MOVE
      ((centroid4 a + q.offset i - (a i).position) * cfg.SHAPE_STIFF))) hread hinj
  refine ⟨_, SolveShapeMatching_distinct sqrt cfg ps q a hread hinj, ho, ?_⟩
  intro i
  refine ⟨_, hr i, ?_, ?_, ?_, ?_, ?_, movedBy_step_length hs _ hM _ _⟩
  · intro hp; simp [movedBy, hp]
  · intro hp; simp [movedBy, hp]
  · unfold movedBy; split_ifs <;> rfl
  · unfold movedBy; split_ifs <;> rfl
  · unfold movedBy; split_ifs <;> rfl

/-- C16: when the six corner reads succeed, `SolveCubeCollision` returns
body `a` with every position shifted by `-t` and body `b` with every
position shifted by `+t`, for one vector `t` parallel to an axis; `t` is zero
when the boxes do not overlap; no other field of any particle or body
changes, and position differences inside a body are kept. -/
theorem SolveCubeCollision_translation (a b : SoftBody F) (a0 a1 a2 b0 b1 b2 : Particle F)
    (ha0 : a.particleAt 0 = some a0) (ha1 : a.particleAt (a.cols - 1) = some a1)
    (ha2 : a.particleAt ((a.rows - 1) * a.cols) = some a2)
    (hb0 : b.particleAt 0 = some b0) (hb1 : b.particleAt (b.cols - 1) = some b1)
    (hb2 : b.particleAt ((b.rows - 1) * b.cols) = some b2) :
    ∃ t : Vec2 F, (t.x = 0 ∨ t.y = 0) ∧
      ((a1.position.x ≤ b0.position.x ∨ b1.position.x ≤ a0.position.x ∨
        a2.position.y ≤ b0.position.y ∨ b2.position.y ≤ a0.position.y) → t = ⟨0, 0⟩) ∧
      SolveCubeCollision a b
        = some ({ a with particles :=
                    a.particles.map fun p => { p with position := p.position - t } },
                { b with particles :=
                    b.particles.map fun p => { p with position := p.position + t } }) ∧
      ∀ p q : Particle F,
        (p.position - t) - (q.position - t) = p.position - q.position ∧
        (p.position + t) - (q.position + t) = p.position - q.position := by
  have hdiff : ∀ (t : Vec2 F) (p q : Particle F),
      (p.position - t) - (q.position - t) = p.position - q.position ∧
      (p.position + t) - (q.position + t) = p.position - q.position := by
    intro t p q
    constructor <;> apply Vec2.ext_xy <;> simp
  by_cases hsep : a1.position.x ≤ b0.position.x ∨ b1.position.x ≤ a0.position.x ∨
      a2.position.y ≤ b0.position.y ∨ b2.position.y ≤ a0.position.y
  · refine ⟨⟨0, 0⟩, Or.inl rfl, fun _ => rfl, ?_, hdiff _⟩
    rw [SolveCubeCollision_apart a b ⟨a0, a1, a2, b0, b1, b2, ha0, ha1, ha2, hb0, hb1, hb2, hsep⟩]
    have e1 := mapPositions_id a (fun v => v - (⟨0, 0⟩ : Vec2 F)) (fun v => Vec2.sub_zero_vec v)
    have e2 := mapPositions_id b (fun v => v + (⟨0, 0⟩ : Vec2 F)) (fun v => Vec2.add_zero_vec v)
    unfold SoftBody.mapPositions at e1 e2
    rw [e1, e2]
  · have hret : ¬ (a1.position.x < b0.position.x ∨ a0.position.x > b1.position.x ∨
        a2.position.y < b0.position.y ∨ a0.position.y > b2.position.y) := by
      intro h
      apply hsep
      rcases h with h | h | h | h
      · exact Or.inl h.le
      · exact Or.inr (Or.inl h.le)
      · exact Or.inr (Or.inr (Or.inl h.le))
      · exact Or.inr (Or.inr (Or.inr h.le))
    by_cases hlt : min (a1.position.x - b0.position.x) (b1.position.x - a0.position.x)
        < min (a2.position.y - b0.position.y) (b2.position.y - a0.position.y)
    · refine ⟨⟨min (a1.position.x - b0.position.x) (b1.position.x - a0.position.x) / 2, 0⟩,
        Or.inr rfl, fun h => absurd h hsep, ?_, hdiff _⟩
      simp only [SolveCubeCollision, ha0, ha1, ha2, hb0, hb1, hb2, if_neg hret, if_pos hlt,
        SoftBody.mapPositions]
      congr 3
      · apply List.map_congr_left; intro p _; congr 1; apply Vec2.ext_xy <;> simp
      · apply List.map_congr_left; intro p _; congr 1; apply Vec2.ext_xy <;> simp
    · refine ⟨⟨0, min (a2.position.y - b0.position.y) (b2.position.y - a0.position.y) / 2⟩,
        Or.inl rfl, fun h => absurd h hsep, ?_, hdiff _⟩
      simp only [SolveCubeCollision, ha0, ha1, ha2, hb0, hb1, hb2, if_neg hret, if_neg hlt,
        SoftBody.mapPositions]
      congr 3
      · apply List.map_congr_left; intro p _; congr 1; apply Vec2.ext_xy <;> simp
      · apply List.map_congr_left; intro p _; congr 1; apply Vec2.ext_xy <;> simp

/-- C17: a cell whose offsets are the build-time positions minus their
centroid, and whose four points sit at the build-time positions shifted by
one vector `t`, is left unchanged by `SolveShapeMatching`, for every
`SHAPE_STIFF` and `MAX_MOVE`. -/
theorem SolveShapeMatching_rest_shape (sqrt : F → F) (cfg : Params F)
    (ps : List (Particle F)) (q : Quad F) (a : Fin 4 → Particle F) (build : Fin 4 → Vec2 F)
    (t : Vec2 F) (hread : ∀ i, ps[q.point i]? = some (a i))
    (hoff : ∀ i, q.offset i = build i - (build 0 + build 1 + build 2 + build 3) / (4 : F))
    (hpos : ∀ i, (a i).position = build i + t) :
    SolveShapeMatching sqrt cfg ps q = some ps := by
  have o0 : q.offset0 = build 0 - (build 0 + build 1 + build 2 + build 3) / (4 : F) := hoff 0
  have o1 : q.offset1 = build 1 - (build 0 + build 1 + build 2 + build 3) / (4 : F) := hoff 1
  have o2 : q.offset2 = build 2 - (build 0 + build 1 + build 2 + build 3) / (4 : F) := hoff 2
  have o3 : q.offset3 = build 3 - (build 0 + build 1 + build 2 + build 3) / (4 : F) := hoff 3
  refine SolveShapeMatching_satisfied sqrt cfg ps q
    ⟨a 0, a 1, a 2, a 3, hread 0, hread 1, hread 2, hread 3, ?_, ?_, ?_, ?_⟩
  all_goals
    rw [hpos 0, hpos 1, hpos 2, hpos 3]
    first | rw [o0] | rw [o1] | rw [o2] | rw [o3]
    apply Vec2.ext_xy <;> simp <;> ring

/-- C17 (witness): the cell of `cubeRight` with its particles moved by `(5, 7)`. -/
theorem SolveShapeMatching_rest_shape_witness :
    SolveShapeMatching Real.sqrt defaultParams
        [shiftedCorners 0, shiftedCorners 1, shiftedCorners 2, shiftedCorners 3] restQuad
      = some [shiftedCorners 0, shiftedCorners 1, shiftedCorners 2, shiftedCorners 3] :=
  SolveShapeMatching_rest_shape Real.sqrt defaultParams _ restQuad shiftedCorners buildCorners
    ⟨5, 7⟩ (restQuad_read shiftedCorners)
    (by intro i; fin_cases i <;> apply Vec2.ext_xy <;>
          norm_num [restQuad, Quad.offset, buildCorners])
    (by intro i; fin_cases i <;> apply Vec2.ext_xy <;>
          norm_num [shiftedCorners, buildCorners, Particle.new])

/-- C19: on a cell with four distinct unpinned points whose offsets sum to
zero, when no move is clamped, `SolveShapeMatching` keeps the four-point
centroid and multiplies each point's deviation from its target,
`position_i - (c + offset_i)`, by `1 - SHAPE_STIFF`. -/
theorem SolveShapeMatching_contracts (sqrt : F → F) (cfg : Params F) (ps : List (Particle F))
    (q : Quad F) (a : Fin 4 → Particle F)
    (hread : ∀ i, ps[q.point i]? = some (a i)) (hinj : Function.Injective q.point)
    (hsum : q.offset0 + q.offset1 + q.offset2 + q.offset3 = ⟨0, 0⟩)
    (hpin : ∀ i, (a i).pinned = false)
    (hclamp : ∀ i, Vec2.Length sqrt
      ((centroid4 a + q.offset i - (a i).position) * cfg.SHAPE_STIFF) ≤ cfg.MAX_MOVE) :
    ∃ ps' n, SolveShapeMatching sqrt cfg ps q = some ps' ∧
      (∀ i, ps'[q.point i]? = some (n i)) ∧
      centroid4 n = centroid4 a ∧
      ∀ i, (n i).position - (centroid4 n + q.offset i)
        = ((a i).position - (centroid4 a + q.offset i)) * (1 - cfg.SHAPE_STIFF) := by
  obtain ⟨hr, -⟩ := quad_writes_read ps q a
    (fun i => movedBy (a i) (clampSpec sqrt cfg.MAX_MOVE
      ((centroid4 a + q.offset i - (a i).position) * cfg.SHAPE_STIFF))) hread hinj
  have hn : ∀ i, (movedBy (a i) (clampSpec sqrt cfg.MAX_MOVE
      ((centroid4 a + q.offset i - (a i).position) * cfg.SHAPE_STIFF))).position
      = (a i).position + (centroid4 a + q.offset i - (a i).position) * cfg.SHAPE_STIFF := by
    intro i
    simp only [movedBy, hpin i, Bool.false_eq_true, if_false, clampSpec, if_pos (hclamp i)]
  have hx : q.offset0.x + q.offset1.x + q.offset2.x + q.offset3.x = 0 := by
    have := congrArg Vec2.x hsum
    simpa using this
  have hy : q.offset0.y + q.offset1.y + q.offset2.y + q.offset3.y = 0 := by
    have := congrArg Vec2.y hsum
    simpa using this
  have hc : centroid4 (fun i => movedBy (a i) (clampSpec sqrt cfg.MAX_MOVE
      ((centroid4 a + q.offset i - (a i).position) * cfg.SHAPE_STIFF))) = centroid4 a := by
    have hcx : (centroid4 a).x * 4
        = (a 0).position.x + (a 1).position.x + (a 2).position.x + (a 3).position.x := by
      simp [centroid4]
    have hcy : (centroid4 a).y * 4
        = (a 0).position.y + (a 1).position.y + (a 2).position.y + (a 3).position.y := by
      simp [centroid4]
    have e0 : q.offset 0 = q.offset0 := rfl
    have e1 : q.offset 1 = q.offset1 := rfl
    have e2 : q.offset 2 = q.offset2 := rfl
    have e3 : q.offset 3 = q.offset3 := rfl
    generalize centroid4 a = c at hn hcx hcy ⊢
    unfold centroid4
    simp only [hn]
    simp only [e0, e1, e2, e3]
    apply Vec2.ext_xy
    · simp only [Vec2.add_x, Vec2.sub_x, Vec2.smul_x, Vec2.sdiv_x]
      linear_combination (cfg.SHAPE_STIFF / 4) * hx + ((1 - cfg.SHAPE_STIFF) / 4) * (-hcx)
    · simp only [Vec2.add_y, Vec2.sub_y, Vec2.smul_y, Vec2.sdiv_y]
      linear_combination (cfg.SHAPE_STIFF / 4) * hy + ((1 - cfg.SHAPE_STIFF) / 4) * (-hcy)
  refine ⟨_, _, SolveShapeMatching_distinct sqrt cfg ps q a hread hinj, hr, hc, ?_⟩
  intro i
  rw [hc]
  simp only [hn]
  apply Vec2.ext_xy <;> simp <;> ring

/-- C15 (witness): the cell of `cubeRight` with one corner pulled out. -/
theorem SolveShapeMatching_moves_witness :
    ∃ ps', SolveShapeMatching Real.sqrt defaultParams
        [pulledCorners 0, pulledCorners 1, pulledCorners 2, pulledCorners 3] restQuad
          = some ps' ∧
      ∀ i, ∃ n, ps'[(restQuad : Quad ℝ).point i]? = some n ∧
        Vec2.Length Real.sqrt (n.position - (pulledCorners i).position)
          ≤ (defaultParams : Params ℝ).MAX_MOVE := by
  obtain ⟨ps', h1, -, h3⟩ := SolveShapeMatching_moves Real.sqrt real_isSqrt defaultParams
    (by norm_num [defaultParams]) _ restQuad pulledCorners (restQuad_read pulledCorners)
    restQuad_injective
  refine ⟨ps', h1, fun i => ?_⟩
  obtain ⟨n, hn, -, -, -, -, -, hlen⟩ := h3 i
  exact ⟨n, hn, hlen⟩

/-- C16 (witness): `cubeRight` against `cubeLeft`. -/
theorem SolveCubeCollision_translation_witness :
    ∃ t : Vec2 ℚ, (t.x = 0 ∨ t.y = 0) ∧
      SolveCubeCollision (cubeRight : SoftBody ℚ) cubeLeft
        = some ({ (cubeRight : SoftBody ℚ) with particles :=
                    ((cubeRight : SoftBody ℚ).particles.map
                      fun p => { p with position := p.position - t }) },
                { (cubeLeft : SoftBody ℚ) with particles :=
                    ((cubeLeft : SoftBody ℚ).particles.map
                      fun p => { p with position := p.position + t }) }) :=
  let ⟨t, h1, _, h3, _⟩ := SolveCubeCollision_translation (cubeRight : SoftBody ℚ) cubeLeft
    _ _ _ _ _ _ cube_corners.1 cube_corners.2.1 cube_corners.2.2.1 cube_corners.2.2.2.1
    cube_corners.2.2.2.2.1 cube_corners.2.2.2.2.2
  ⟨t, h1, h3⟩

/-- C19 (witness): the same cell; its offsets sum to zero and no move is clamped. -/
theorem SolveShapeMatching_contracts_witness :
    ∃ ps' n, SolveShapeMatching Real.sqrt defaultParams
        [pulledCorners 0, pulledCorners 1, pulledCorners 2, pulledCorners 3] restQuad
          = some ps' ∧
      (∀ i, ps'[(restQuad : Quad ℝ).point i]? = some (n i)) ∧
      centroid4 n = centroid4 (pulledCorners : Fin 4 → Particle ℝ) :=
  let ⟨ps', n, h1, h2, h3, _⟩ := SolveShapeMatching_contracts Real.sqrt defaultParams _
    restQuad pulledCorners (restQuad_read pulledCorners) restQuad_injective
    (by apply Vec2.ext_xy <;> norm_num [restQuad])
    (by intro i; fin_cases i <;> rfl) pulled_unclamped
  ⟨ps', n, h1, h2, h3⟩

/-- C13: the press handler grabs a particle iff some particle of some body
is at distance less than 20 from the mouse (squared distance below 400);
the grabbed pointer designates a particle of a listed body that is within
that radius and to which no particle of any body is strictly nearer; when no
particle is within the radius nothing is grabbed; the bodies are untouched. -/
theorem handlePress_nearest (sqrt : F → F) (hs : IsSqrt sqrt) (mousePos : Vec2 F)
    (w : World F) :
    ((handlePress mousePos w).grabbedParticle ≠ none ↔
      ∃ c ∈ w.cubes, ∃ p ∈ c.2.particles, Vec2.Length sqrt (p.position - mousePos) < 20) ∧
    (∀ p : Particle F,
      Vec2.Length sqrt (p.position - mousePos) < 20 ↔ distSq mousePos p < 400) ∧
    (∀ g, (handlePress mousePos w).grabbedParticle = some g →
      ∃ c ∈ w.cubes, ∃ p, c.1 = g.1 ∧ c.2.particles[g.2]? = some p ∧
        Vec2.Length sqrt (p.position - mousePos) < 20 ∧
        ∀ c' ∈ w.cubes, ∀ p' ∈ c'.2.particles,
          distSq mousePos p ≤ distSq mousePos p' ∧
          Vec2.Length sqrt (p.position - mousePos)
            ≤ Vec2.Length sqrt (p'.position - mousePos)) ∧
    ((∀ c ∈ w.cubes, ∀ p ∈ c.2.particles, ¬ Vec2.Length sqrt (p.position - mousePos) < 20) →
      (handlePress mousePos w).grabbedParticle = none) ∧
    (handlePress mousePos w).cubes = w.cubes := by
  obtain ⟨h1, h2⟩ := handlePress_inv mousePos w
  have hread : ∀ (c : Nat × SoftBody F) (p : Particle F), p ∈ c.2.particles →
      ∃ i, c.2.particles[i]? = some p := fun c p hp => List.getElem?_of_mem hp
  have hnone : (∀ c ∈ w.cubes, ∀ p ∈ c.2.particles,
      ¬ Vec2.Length sqrt (p.position - mousePos) < 20) →
      (handlePress mousePos w).grabbedParticle = none := by
    intro hall
    cases hr : (handlePress mousePos w).grabbedParticle with
    | none => rfl
    | some g =>
      exfalso
      obtain ⟨hlt, ⟨p, ⟨c, hc, -, hp⟩, hd⟩, -⟩ := h2 g hr
      exact hall c hc p (List.getElem?_mem hp)
        ((distSq_lt_iff hs mousePos p).mpr (hd ▸ hlt))
  refine ⟨⟨fun hne => ?_, ?_⟩, distSq_lt_iff hs mousePos, fun g hg => ?_, hnone, rfl⟩
  · by_contra hex
    push_neg at hex
    exact hne (hnone fun c hc p hp => not_lt.mpr (hex c hc p hp))
  · rintro ⟨c, hc, p, hp, hlt⟩ hn
    obtain ⟨i, hi⟩ := hread c p hp
    have := (h1 hn).2 (c.1, i) p ⟨c, hc, rfl, hi⟩
    exact absurd ((distSq_lt_iff hs mousePos p).mp hlt) (not_lt.mpr this)
  · obtain ⟨hlt, ⟨p, ⟨c, hc, hc1, hp⟩, hd⟩, hmin⟩ := h2 g hg
    refine ⟨c, hc, p, hc1, hp, (distSq_lt_iff hs mousePos p).mpr (hd ▸ hlt), ?_⟩
    intro c' hc' p' hp'
    obtain ⟨i, hi⟩ := hread c' p' hp'
    have hle : distSq mousePos p ≤ distSq mousePos p' := by
      rw [hd]
      exact hmin (c'.1, i) p' ⟨c', hc', rfl, hi⟩
    exact ⟨hle, Length_le_of_distSq_le hs mousePos p p' hle⟩

/-- C13 (witness): `grabWorld` with the mouse on particle 0 of its body. -/
theorem handlePress_nearest_witness :
    (handlePress ⟨310, 300⟩ (grabWorld : World ℝ)).grabbedParticle ≠ none ↔
      ∃ c ∈ (grabWorld : World ℝ).cubes, ∃ p ∈ c.2.particles,
        Vec2.Length Real.sqrt (p.position - ⟨310, 300⟩) < 20 :=
  (handlePress_nearest Real.sqrt real_isSqrt ⟨310, 300⟩ grabWorld).1

/-- C14: for `cols ≥ 1` and `rows ≥ 1` the constructor builds `cols * rows`
particles in row-major order, each with oldPosition equal to position, zero
acceleration and unpinned; `(cols-1)*rows + cols*(rows-1) + 2*(cols-1)*(rows-1)`
links, namely the horizontal and vertical neighbour links with rest length
`spacing` and the two diagonals of every 2x2 block with rest length
`1.4142 * spacing`; and `(cols-1)*(rows-1)` cells, the cell of grid place
`(x, y)` referencing the particles `y*cols+x`, `y*cols+x+1`, `(y+1)*cols+x`,
`(y+1)*cols+x+1`. -/
theorem SoftBody_new_structure (rx ry : Nat → Nat) (startX startY : F) (c r : Int) (s : F)
    (hc : 1 ≤ c) (hr : 1 ≤ r) :
    (SoftBody.new rx ry startX startY c r s).cols = c ∧
    (SoftBody.new rx ry startX startY c r s).rows = r ∧
    (SoftBody.new rx ry startX startY c r s).spacing = s ∧
    (SoftBody.new rx ry startX startY c r s).particles.length = c.toNat * r.toNat ∧
    (∀ x y, x < c.toNat → y < r.toNat →
      (SoftBody.new rx ry startX startY c r s).particles[y * c.toNat + x]?
        = some (Particle.new (gridPos startX startY s (rx (y * c.toNat + x))
            (ry (y * c.toNat + x)) x y))) ∧
    (∀ p ∈ (SoftBody.new rx ry startX startY c r s).particles,
      p.oldPosition = p.position ∧ p.acceleration = ⟨0, 0⟩ ∧ p.pinned = false) ∧
    (SoftBody.new rx ry startX startY c r s).sticks.length
      = (c.toNat - 1) * r.toNat + c.toNat * (r.toNat - 1)
          + 2 * (c.toNat - 1) * (r.toNat - 1) ∧
    (∀ st, st ∈ (SoftBody.new rx ry startX startY c r s).sticks ↔
      ∃ x y, x < c.toNat ∧ y < r.toNat ∧
        ((x + 1 < c.toNat ∧ st = ⟨y * c.toNat + x, y * c.toNat + x + 1, s⟩) ∨
         (y + 1 < r.toNat ∧ st = ⟨y * c.toNat + x, y * c.toNat + x + c.toNat, s⟩) ∨
         (x + 1 < c.toNat ∧ y + 1 < r.toNat ∧
           (st = ⟨y * c.toNat + x, y * c.toNat + x + c.toNat + 1, s * 1.4142⟩ ∨
            st = ⟨y * c.toNat + x + 1, y * c.toNat + x + c.toNat, s * 1.4142⟩)))) ∧
    (SoftBody.new rx ry startX startY c r s).quads.length
      = (c.toNat - 1) * (r.toNat - 1) ∧
    (∀ x y, x + 1 < c.toNat → y + 1 < r.toNat →
      ∃ q, (SoftBody.new rx ry startX startY c r s).quads[y * (c.toNat - 1) + x]? = some q ∧
        q.p0 = y * c.toNat + x ∧ q.p1 = y * c.toNat + x + 1 ∧
        q.p2 = (y + 1) * c.toNat + x ∧ q.p3 = (y + 1) * c.toNat + x + 1) ∧
    ∀ q ∈ (SoftBody.new rx ry startX startY c r s).quads,
      ∃ x y, x + 1 < c.toNat ∧ y + 1 < r.toNat ∧
        q.p0 = y * c.toNat + x ∧ q.p1 = y * c.toNat + x + 1 ∧
        q.p2 = (y + 1) * c.toNat + x ∧ q.p3 = (y + 1) * c.toNat + x + 1 :=
  ⟨rfl, rfl, rfl, (new_particles rx ry startX startY c r s).1,
    (new_particles rx ry startX startY c r s).2.1,
    (new_particles rx ry startX startY c r s).2.2,
    new_sticks_length rx ry startX startY c r s hc hr,
    new_sticks_mem rx ry startX startY c r s,
    (new_quads rx ry startX startY c r s).1,
    (new_quads rx ry startX startY c r s).2.1,
    (new_quads rx ry startX startY c r s).2.2⟩

/-- C14 (witness): `cubeRight` is built with `cols = rows = 2`: four particles,
six links, one cell. -/
theorem SoftBody_new_structure_witness :
    (cubeRight : SoftBody ℚ).particles.length = (2 : Int).toNat * (2 : Int).toNat ∧
    (cubeRight : SoftBody ℚ).sticks.length
      = ((2 : Int).toNat - 1) * (2 : Int).toNat + (2 : Int).toNat * ((2 : Int).toNat - 1)
          + 2 * ((2 : Int).toNat - 1) * ((2 : Int).toNat - 1) ∧
    (cubeRight : SoftBody ℚ).quads.length = ((2 : Int).toNat - 1) * ((2 : Int).toNat - 1) :=
  ⟨(SoftBody_new_structure (fun _ => 0) (fun _ => 0) (310 : ℚ) 300 2 2 30
      (by norm_num) (by norm_num)).2.2.2.1,
   (SoftBody_new_structure (fun _ => 0) (fun _ => 0) (310 : ℚ) 300 2 2 30
      (by norm_num) (by norm_num)).2.2.2.2.2.2.1,
   (SoftBody_new_structure (fun _ => 0) (fun _ => 0) (310 : ℚ) 300 2 2 30
      (by norm_num) (by norm_num)).2.2.2.2.2.2.2.2.1⟩

/-- C20: for every spacing `s > 0`, no four points of the plane put the four
sides of a 2x2 block at length `s` and both diagonals at length `1.4142 * s`;
hence for a body with `cols ≥ 2` and `rows ≥ 2` no particle placement
satisfies every link, and whenever `DIST_STIFF ≠ 0` and every link has
unpinned endpoints at distinct positions, some link's `SolveStick` call moves
both of its endpoints. -/
theorem block_links_never_at_rest (sqrt : F → F) (hs : IsSqrt sqrt) (s : F) (hpos : 0 < s) :
    (∀ A B C D : Vec2 F,
      ¬ (Vec2.Length sqrt (B - A) = s ∧ Vec2.Length sqrt (C - A) = s ∧
        Vec2.Length sqrt (D - A) = s * 1.4142 ∧ Vec2.Length sqrt (C - B) = s * 1.4142 ∧
        Vec2.Length sqrt (D - B) = s ∧ Vec2.Length sqrt (D - C) = s)) ∧
    (∀ (rx ry : Nat → Nat) (startX startY : F) (c r : Int), 2 ≤ c → 2 ≤ r →
      ∀ ps : List (Particle F),
        ¬ SticksSatisfied sqrt
            { SoftBody.new rx ry startX startY c r s with particles := ps }) ∧
    (∀ (rx ry : Nat → Nat) (startX startY : F) (c r : Int), 2 ≤ c → 2 ≤ r →
      ∀ (cfg : Params F) (ps : List (Particle F)), cfg.DIST_STIFF ≠ 0 →
        (∀ st ∈ (SoftBody.new rx ry startX startY c r s).sticks,
          ∃ p q, ps[st.p1]? = some p ∧ ps[st.p2]? = some q ∧
            p.pinned = false ∧ q.pinned = false ∧ p.position ≠ q.position) →
        ∃ st ∈ (SoftBody.new rx ry startX startY c r s).sticks,
          ∃ p q, ps[st.p1]? = some p ∧ ps[st.p2]? = some q ∧
            (SolveStick sqrt cfg st.restLength p q).1.position ≠ p.position ∧
            (SolveStick sqrt cfg st.restLength p q).2.position ≠ q.position) := by
  refine ⟨fun A B C D h => block_lengths_impossible hs s hpos A B C D h,
    fun rx ry startX startY c r hc hr ps =>
      new_sticks_unsatisfiable hs rx ry startX startY c r s hpos hc hr ps, ?_⟩
  intro rx ry startX startY c r hc hr cfg ps hk hvalid
  by_contra hno
  push_neg at hno
  apply new_sticks_unsatisfiable hs rx ry startX startY c r s hpos hc hr ps
  intro st hst
  obtain ⟨p, q, hp, hq, up, uq, hd⟩ := hvalid st hst
  refine ⟨p, q, hp, hq, ?_⟩
  by_contra hne
  obtain ⟨m1, m2⟩ := SolveStick_moves hs cfg st.restLength p q up uq hd hk hne
  exact m2 (hno st hst p q hp hq m1)

/-- C20 (witness): the particles of `cubeRight` as built do not satisfy the
links of `cubeRight` (spacing 30, two columns, two rows). -/
theorem block_links_never_at_rest_witness :
    ¬ SticksSatisfied Real.sqrt
        { SoftBody.new (fun _ => 0) (fun _ => 0) (310 : ℝ) 300 2 2 30 with
          particles := (cubeRight : SoftBody ℝ).particles } :=
  (block_links_never_at_rest Real.sqrt real_isSqrt 30 (by norm_num)).2.1
    (fun _ => 0) (fun _ => 0) 310 300 2 2 (by norm_num) (by norm_num) cubeRight.particles

end Claims

end SquishyCubes
